import Mathlib

/-!
Dirty-page / snapshot-context write-back engine of the Ceph kernel client

A shallow embedding of `src/kernel/addr.c`.  Pages, the per-inode write
accounting and the reference counts of snap contexts are explicit state; the
transport (`ceph_osdc_writepages`, `ceph_osdc_readpage`) answers through
parameters; a fired `BUG_ON` is the result `Res.bug`.
-/

namespace Ceph

/-! ## Data model -/

/-- A `struct ceph_snap_context *` that is not NULL.  Contexts are compared by
pointer identity only, so a context is represented by its address. -/
abbrev Ctx := Nat

/-- Kernel constant `PAGE_CACHE_SHIFT` (4 KiB pages). -/
def PAGE_CACHE_SHIFT : Nat := 12

/-- Kernel constant `PAGE_CACHE_SIZE`, that is `1 << PAGE_CACHE_SHIFT`. -/
def PAGE_CACHE_SIZE : Nat := 4096

/-- Kernel constant `PAGE_SIZE`; equal to `PAGE_CACHE_SIZE` in these kernels. -/
def PAGE_SIZE : Nat := 4096

/-- Kernel constant `PAGEVEC_SIZE`. -/
def PAGEVEC_SIZE : Nat := 14

/-- Kernel errno `ENOMEM`. -/
def ENOMEM : Int := 12

/-- Kernel errno `EFAULT`. -/
def EFAULT : Int := 14

/-- Width of `unsigned long` (`pgoff_t`). -/
def BITS_PER_LONG : Nat := 64

/-- Result of running a piece of the code: a value, a fatal fault (a fired
`BUG_ON` or a NULL dereference), or exhaustion of the fuel of a loop model. -/
inductive Res (α : Type) where
  | ok : α → Res α
  | bug : Res α
  | timeout : Res α
  deriving DecidableEq, Repr

/-- The fields of `struct page` the code reads or writes.  `mapped` is
`page->mapping != NULL`, `tag_dirty` is the page's `PAGECACHE_TAG_DIRTY` tag in
the radix tree of its mapping, `private_` is `page->private` and `has_private`
the flag `PG_private`. -/
structure Page where
  mapped : Bool
  locked : Bool
  dirty : Bool
  writeback : Bool
  uptodate : Bool
  checked : Bool
  tag_dirty : Bool
  private_ : Option Ctx
  has_private : Bool
  deriving DecidableEq, Repr

/-- A `struct ceph_cap_snap`: one retired epoch with its count of dirty pages. -/
structure CapSnap where
  context : Ctx
  dirty : Int
  deriving DecidableEq, Repr

/-- A `struct ceph_snap_realm`: only `cached_context`, the head context, is used. -/
structure SnapRealm where
  cached_context : Option Ctx
  deriving DecidableEq, Repr

/-- The fields of `struct ceph_inode_info` (and of its `vfs_inode`) the code
uses.  `i_cap_snaps` is ordered as the list is walked, oldest first. -/
structure Inode where
  i_wrbuffer_ref : Int
  i_wrbuffer_ref_head : Int
  i_cap_snaps : List CapSnap
  i_snap_realm : Option SnapRealm
  i_size : Int
  i_blkbits : Nat
  deriving DecidableEq, Repr

/-- The helper `ceph_put_wrbuffer_cap_refs(ci, nr, snapc)` is declared in
`super.h` and defined outside `addr.c`; the functions below take it as a
parameter of this type. -/
abbrev CapRefsPut := Inode → Int → Option Ctx → Inode

/-- One cached page together with the state it is connected to: its bytes
(positions below `PAGE_SIZE`), the inode, and the reference count of every
snap context. -/
structure PageSt where
  page : Page
  data : Nat → Nat
  ci : Inode
  nref : Ctx → Int

/-- The fields of `struct writeback_control` the code uses; `sync_none` is
`sync_mode == WB_SYNC_NONE`. -/
structure Wbc where
  range_cyclic : Bool
  range_start : Int
  range_end : Int
  sync_none : Bool
  nr_to_write : Int
  pages_skipped : Int
  deriving DecidableEq, Repr

/-! ## Collaborators outside `addr.c` -/

/-- Modelled from the spec: `ceph_get_snap_context` is not in `addr.c`; a snap
context is reference-counted, taking a reference adds one to its count and a
NULL argument is returned unchanged. -/
def ceph_get_snap_context (c : Option Ctx) (nref : Ctx → Int) : Ctx → Int :=
  match c with
  | none => nref
  | some c => fun x => if x = c then nref x + 1 else nref x

/-- Modelled from the spec: `ceph_put_snap_context` is not in `addr.c`;
releasing a reference subtracts one from the count of the context and a NULL
argument is ignored. -/
def ceph_put_snap_context (c : Option Ctx) (nref : Ctx → Int) : Ctx → Int :=
  match c with
  | none => nref
  | some c => fun x => if x = c then nref x - 1 else nref x

/-- The walk of `i_cap_snaps` that subtracts `nr` from the first record whose
context is `snapc`; a record whose count reaches zero is removed. -/
def cap_snaps_release (snapc : Ctx) (nr : Int) : List CapSnap → List CapSnap
  | [] => []
  | r :: rs =>
    if r.context = snapc then
      (if r.dirty - nr = 0 then rs else { r with dirty := r.dirty - nr } :: rs)
    else r :: cap_snaps_release snapc nr rs

/-- Modelled from the spec: `ceph_put_wrbuffer_cap_refs` is not in `addr.c`.
It releases `nr` accounting references against `snapc`: the total count drops
by `nr`, and so does the head count when `snapc` is the head context, or else
the count of the retired-epoch record of `snapc`, which is removed when its
count reaches zero. -/
def ceph_put_wrbuffer_cap_refs : CapRefsPut := fun ci nr snapc =>
  let ci1 := { ci with i_wrbuffer_ref := ci.i_wrbuffer_ref - nr }
  match ci.i_snap_realm, snapc with
  | some realm, some c =>
    if realm.cached_context = some c then
      { ci1 with i_wrbuffer_ref_head := ci.i_wrbuffer_ref_head - nr }
    else { ci1 with i_cap_snaps := cap_snaps_release c nr ci.i_cap_snaps }
  | none, some c => { ci1 with i_cap_snaps := cap_snaps_release c nr ci.i_cap_snaps }
  | _, none => ci1

/-- Host primitive `TestSetPageDirty`: the old dirty flag and the page with the
flag set. -/
def TestSetPageDirty (p : Page) : Bool × Page :=
  (p.dirty, { p with dirty := true })

/-- Host primitive `set_page_writeback`: sets `PG_writeback`; the dirty tag of
the radix tree is cleared when the page is not dirty. -/
def set_page_writeback (p : Page) : Page :=
  { p with writeback := true, tag_dirty := p.dirty && p.tag_dirty }

/-- Host primitive `end_page_writeback`: clears `PG_writeback`. -/
def end_page_writeback (p : Page) : Page :=
  { p with writeback := false }

/-- Host primitive `clear_page_dirty_for_io`: the old dirty flag and the page
with the flag cleared. -/
def clear_page_dirty_for_io (p : Page) : Bool × Page :=
  (p.dirty, { p with dirty := false })

/-- Host primitive `wait_on_page_writeback`: returns once `PG_writeback` is
clear. -/
def wait_on_page_writeback (p : Page) : Page :=
  { p with writeback := false }

/-- Host primitive `unlock_page`. -/
def unlock_page (p : Page) : Page :=
  { p with locked := false }

/-- Host primitive `memset(kaddr + start, 0, n)` on the bytes of a page. -/
def memset_zero (data : Nat → Nat) (start n : Nat) : Nat → Nat :=
  fun p => if start ≤ p ∧ p < start + n then 0 else data p

/-! ## `ceph_set_page_dirty` (lines 22-122) -/

/-- The `list_for_each` of lines 61-68: adds one to the count of the first
record whose context is `snapc`.  The second component is the record the local
`capsnap` points to when the loop is left: NULL only if the list is empty. -/
def capsnap_dirty_inc (snapc : Ctx) : List CapSnap → List CapSnap × Option CapSnap
  | [] => ([], none)
  | r :: rs =>
    if r.context = snapc then
      ({ r with dirty := r.dirty + 1 } :: rs, some { r with dirty := r.dirty + 1 })
    else
      match capsnap_dirty_inc snapc rs with
      | (rs1, none) => (r :: rs1, some r)
      | (rs1, some c) => (r :: rs1, some c)

/-- Lines 79-121: the page-side half of `ceph_set_page_dirty`, after the
accounting has been adjusted.  `truncated` says that `page->mapping` is found
NULL under the tree lock (a concurrent truncate). -/
def set_page_dirty_finish (put : CapRefsPut) (truncated : Bool) (page : Page)
    (data : Nat → Nat) (ci : Inode) (nref : Ctx → Int) (snapc : Option Ctx) :
    Res (Int × PageSt) :=
  if truncated then
    .ok (1, { page := { page with mapped := false }, data := data,
              ci := put ci 1 snapc, nref := nref })
  else
    .ok (1, { page := { page with tag_dirty := true, private_ := snapc,
                                  has_private := true },
              data := data, ci := ci,
              nref := ceph_put_snap_context page.private_ nref })

/-- The function `ceph_set_page_dirty(page, snapc)`.  Returns the C return value
and the new state. -/
def ceph_set_page_dirty (put : CapRefsPut) (truncated : Bool) (s : PageSt)
    (snapc : Option Ctx) : Res (Int × PageSt) :=
  if !s.page.mapped then
    .ok (if (TestSetPageDirty s.page).1 then 0 else 1,
         { s with page := (TestSetPageDirty s.page).2 })
  else if (TestSetPageDirty s.page).1 then
    .ok (0, { s with page := (TestSetPageDirty s.page).2 })
  else
    let page := (TestSetPageDirty s.page).2
    let ci := { s.ci with i_wrbuffer_ref := s.ci.i_wrbuffer_ref + 1 }
    match s.ci.i_snap_realm with
    | none => .bug
    | some realm =>
      match snapc with
      | none =>
        set_page_dirty_finish put truncated page s.data
          { ci with i_wrbuffer_ref_head := ci.i_wrbuffer_ref_head + 1 }
          (ceph_get_snap_context realm.cached_context s.nref) realm.cached_context
      | some c =>
        if some c = realm.cached_context then
          set_page_dirty_finish put truncated page s.data
            { ci with i_wrbuffer_ref_head := ci.i_wrbuffer_ref_head + 1 }
            (ceph_get_snap_context realm.cached_context s.nref) realm.cached_context
        else
          match capsnap_dirty_inc c ci.i_cap_snaps with
          | (_, none) => .bug
          | (caps, some _) =>
            set_page_dirty_finish put truncated page s.data
              { ci with i_cap_snaps := caps } s.nref (some c)

/-- The function `ceph_set_page_dirty_vfs(page)`. -/
def ceph_set_page_dirty_vfs (put : CapRefsPut) (truncated : Bool) (s : PageSt) :
    Res (Int × PageSt) :=
  ceph_set_page_dirty put truncated s none

/-- Host primitive `set_page_dirty`: for a page with a mapping it calls the
`set_page_dirty` entry of `ceph_aops`, which is `ceph_set_page_dirty_vfs`;
otherwise it sets the flag. -/
def set_page_dirty (put : CapRefsPut) (truncated : Bool) (s : PageSt) :
    Res (Int × PageSt) :=
  if s.page.mapped then ceph_set_page_dirty_vfs put truncated s
  else .ok (if s.page.dirty then 0 else 1, { s with page := (TestSetPageDirty s.page).2 })

/-! ## `ceph_redirty_page` (lines 124-156) -/

/-- The function `ceph_redirty_page(mapping, page)` on the page. -/
def ceph_redirty_page (p : Page) : Res Page :=
  if !p.locked then .bug
  else if (TestSetPageDirty p).1 then .ok (TestSetPageDirty p).2
  else if p.mapped then .ok { (TestSetPageDirty p).2 with tag_dirty := true }
  else .ok (TestSetPageDirty p).2

/-! ## `ceph_invalidatepage` (lines 164-193) -/

/-- The function `ceph_invalidatepage(page, offset)`. -/
def ceph_invalidatepage (put : CapRefsPut) (s : PageSt) (offset : Nat) : Res PageSt :=
  let snapc := s.page.private_
  if !s.page.locked then .bug
  else
    let page := if offset = 0 then { s.page with checked := false } else s.page
    if !page.dirty then
      (if snapc.isSome then .bug else .ok { s with page := page })
    else if !page.mapped then
      (if snapc.isSome then .bug else .ok { s with page := page })
    else if offset = 0 then
      .ok { s with page := { page with private_ := none, has_private := false },
                   ci := put s.ci 1 snapc,
                   nref := ceph_put_snap_context snapc s.nref }
    else .ok { s with page := page }

/-! ## `writepage_nounlock` and `ceph_writepage` (lines 292-347) -/

/-- The function `writepage_nounlock(page, wbc)`.  `rc` is what
`ceph_osdc_writepages` returns for the one request issued; `wbc` is `none` for
a NULL `wbc`.  Returns the C return value, the state and the `wbc`. -/
def writepage_nounlock (put : CapRefsPut) (truncated : Bool) (rc : Int) (s : PageSt)
    (wbc : Option Wbc) : Res (Int × PageSt × Option Wbc) :=
  if !s.page.mapped then .ok (-EFAULT, s, wbc)
  else
    let was_dirty := s.page.dirty
    let snapc := s.page.private_
    let s1 := { s with page := set_page_writeback s.page }
    if 0 ≤ rc then
      let s2 := if was_dirty then { s1 with ci := put s1.ci 1 snapc } else s1
      .ok (0, { s2 with page := end_page_writeback { s2.page with uptodate := true } }, wbc)
    else
      let wbc1 := wbc.map fun w => { w with pages_skipped := w.pages_skipped + 1 }
      match ceph_set_page_dirty put truncated s1 snapc with
      | .ok (_, s2) => .ok (rc, { s2 with page := end_page_writeback s2.page }, wbc1)
      | .bug => .bug
      | .timeout => .timeout

/-- The function `ceph_writepage(page, wbc)`. -/
def ceph_writepage (put : CapRefsPut) (truncated : Bool) (rc : Int) (s : PageSt)
    (wbc : Option Wbc) : Res (Int × PageSt × Option Wbc) :=
  match writepage_nounlock put truncated rc s wbc with
  | .ok (err, s1, w) => .ok (err, { s1 with page := unlock_page s1.page }, w)
  | .bug => .bug
  | .timeout => .timeout

/-! ## `ceph_write_begin` and `ceph_write_end` (lines 670-794) -/

/-- What the collaborators answer during one `ceph_write_begin`: whether
`__grab_cache_page` fails, the result of the transport write of a fenced flush,
the result of `ceph_osdc_readpage` with the bytes it delivers, and whether a
truncate races with a redirtying of the page. -/
structure BeginEnv where
  nomem : Bool
  wr_rc : Int
  rd_rc : Int
  rd_data : Nat → Nat
  truncated : Bool

/-- The bytes of a page after `ceph_osdc_readpage` returned `r`: the first `r`
bytes are the ones delivered, the others are as before. -/
def read_fill (data : Nat → Nat) (r : Int) (rd : Nat → Nat) : Nat → Nat :=
  fun p => if (p : Int) < r then rd p else data p

/-- Host helper `simple_prepare_write(file, page, from, to)` of libfs: a page
that is not up to date and is not written whole gets zeros outside the
window. -/
def simple_prepare_write (uptodate : Bool) (data : Nat → Nat) (from_ to_ : Nat) : Nat → Nat :=
  if uptodate then data
  else if to_ - from_ = PAGE_CACHE_SIZE then data
  else memset_zero (memset_zero data 0 from_) to_ (PAGE_CACHE_SIZE - to_)

/-- Lines 725-748 of `ceph_write_begin`: the bytes of the page after a read
that returned `r ≥ 0`, for the window that starts at `pos_in_page` and has
length `len`. -/
def write_begin_read (data : Nat → Nat) (r : Int) (rd : Nat → Nat)
    (pos_in_page len : Nat) : Nat → Nat :=
  let d0 := read_fill data r rd
  let d1 := if r < (pos_in_page : Int) then memset_zero d0 r.toNat (pos_in_page - r.toNat) else d0
  let end_in_page := pos_in_page + len
  if end_in_page < PAGE_SIZE ∧ r < (PAGE_SIZE : Int) then
    memset_zero d1 end_in_page (PAGE_SIZE - end_in_page)
  else d1

/-- The function `ceph_write_begin(file, mapping, pos, len, flags, pagep,
fsdata)`; `s.page` is the page `__grab_cache_page` finds or creates.  Returns
the C return value and the state. -/
def ceph_write_begin (put : CapRefsPut) (env : BeginEnv) (s : PageSt) (pos len : Nat) :
    Res (Int × PageSt) :=
  let page_off : Nat := pos - pos % PAGE_SIZE
  let pos_in_page : Nat := pos % PAGE_SIZE
  let end_in_page : Nat := pos_in_page + len
  if env.nomem then .ok (-ENOMEM, s)
  else
    let s0 := { s with page := wait_on_page_writeback { s.page with locked := true } }
    match s0.ci.i_snap_realm with
    | none => .bug
    | some realm =>
      match realm.cached_context with
      | none => .bug
      | some head =>
        let flushed : Res (Int × PageSt) :=
          if s0.page.private_.isSome ∧ s0.page.private_ ≠ some head then
            match writepage_nounlock put env.truncated env.wr_rc s0 none with
            | .ok (r, s1, _) => .ok (r, s1)
            | .bug => .bug
            | .timeout => .timeout
          else .ok (0, s0)
        match flushed with
        | .bug => .bug
        | .timeout => .timeout
        | .ok (r, s1) =>
          if r < 0 then .ok (r, { s1 with page := unlock_page s1.page })
          else if s1.page.uptodate then .ok (0, s1)
          else if pos_in_page = 0 ∧ len = PAGE_SIZE then .ok (0, s1)
          else if (page_off : Int) ≥ s1.ci.i_size ∨
              (pos_in_page = 0 ∧ ((pos + len : Nat) : Int) ≥ s1.ci.i_size) then
            .ok (0, { s1 with data :=
              simple_prepare_write s1.page.uptodate s1.data pos_in_page end_in_page })
          else if env.rd_rc < 0 then
            .ok (env.rd_rc, { s1 with page := unlock_page s1.page })
          else
            .ok (0, { s1 with data :=
              write_begin_read s1.data env.rd_rc env.rd_data pos_in_page len })

/-- Modelled from the spec: `ceph_inode_set_size` is not in `addr.c`; it
records the new size of the inode. -/
def ceph_inode_set_size (ci : Inode) (size : Int) : Inode :=
  { ci with i_size := size }

/-- The function `ceph_write_end(file, mapping, pos, len, copied, page,
fsdata)`.  Returns the C return value and the state. -/
def ceph_write_end (put : CapRefsPut) (truncated : Bool) (s : PageSt)
    (pos len copied : Nat) : Res (Int × PageSt) :=
  let from_ : Nat := pos % PAGE_CACHE_SIZE
  let data1 := if copied < len then memset_zero s.data (from_ + copied) (len - copied) else s.data
  let ci1 := if ((pos + copied : Nat) : Int) > s.ci.i_size
    then ceph_inode_set_size s.ci ((pos + copied : Nat) : Int) else s.ci
  let s1 : PageSt := { s with data := data1, ci := ci1, page := { s.page with uptodate := true } }
  match set_page_dirty put truncated s1 with
  | .ok (_, s2) => .ok ((copied : Int), { s2 with page := unlock_page s2.page })
  | .bug => .bug
  | .timeout => .timeout

/-! ## `ceph_page_mkwrite` (lines 815-839) -/

/-- Lines 824-828 of `ceph_page_mkwrite`: the length `len` for a write fault on
the page at `index` of a file of `size` bytes. -/
def page_mkwrite_len (index : Nat) (size : Int) : Int :=
  let off : Int := ((index * PAGE_CACHE_SIZE : Nat) : Int)
  if off + (PAGE_CACHE_SIZE : Int) ≤ size then (PAGE_CACHE_SIZE : Int)
  else size % (PAGE_CACHE_SIZE : Int)

/-- The function `ceph_page_mkwrite(vma, page)` for the page at `index`, which
is the page `ceph_write_begin` grabs.  `truncated` is the truncation race of
the `set_page_dirty` of `ceph_write_end`.  Returns the C return value and the
state. -/
def ceph_page_mkwrite (put : CapRefsPut) (env : BeginEnv) (truncated : Bool) (s : PageSt)
    (index : Nat) : Res (Int × PageSt) :=
  let off : Nat := index * PAGE_CACHE_SIZE
  let len : Nat := (page_mkwrite_len index s.ci.i_size).toNat
  match ceph_write_begin put env s off len with
  | .ok (ret, s1) =>
    if ret = 0 then
      match ceph_write_end put truncated s1 off len len with
      | .ok (_, s2) => .ok (ret, s2)
      | .bug => .bug
      | .timeout => .timeout
    else .ok (ret, s1)
  | .bug => .bug
  | .timeout => .timeout

/-! ## `ceph_writepages` (lines 370-665) -/

/-- The mapping with its host inode while `ceph_writepages` runs: `pc k` is the
page at index `k` of the page cache, whose radix tree holds no page at an index
of `bound` or more. -/
structure Mapping where
  pc : Nat → Page
  bound : Nat
  writeback_index : Nat
  ci : Inode
  nref : Ctx → Int
  wbc : Wbc

/-- What the collaborators answer during one `ceph_writepages`: the mount
option `wsize`, whether `kmalloc` of the page vector fails, what
`generic_writepages` then returns, and what `ceph_osdc_writepages` returns for
the bulk write with a given number (0 for the first one issued).  The local
`capsnap` keeps pointing to a record across `goto retry` while the accounting
helper may have changed or released that record: `reread n c` is what is read
through the pointer after `n` bulk writes when the record held `c` at the last
walk of the list. -/
structure WpEnv where
  mount_wsize : Nat
  alloc_fails : Bool
  generic_rc : Int
  osdc : Nat → Int
  reread : Nat → CapSnap → CapSnap

/-- One call of `ceph_osdc_writepages` made by `ceph_writepages`: the retired
epochs as the preceding selection saw them, the context, offset and length of
the request, the pages handed over (index and state at the call), the size of
the page vector, the result, and the same pages as the loop of lines 608-624
leaves them. -/
structure BulkWrite where
  seen : List CapSnap
  snapc : Ctx
  offset : Int
  len : Int
  pages : List (Nat × Page)
  max_pages : Nat
  rc : Int
  after : List (Nat × Page)

/-- The mapping together with the locals of `ceph_writepages` that live across
its loops; `seen` and `log` record the selections and the bulk writes. -/
structure Wp where
  pc : Nat → Page
  bound : Nat
  writeback_index : Nat
  ci : Inode
  nref : Ctx → Int
  wbc : Wbc
  index : Nat
  end_ : Nat
  range_whole : Bool
  should_loop : Bool
  done : Bool
  rc : Int
  snapc : Option Ctx
  capsnap : Option CapSnap
  seen : List CapSnap
  log : List BulkWrite

/-- Lines 385-392: the transfer size `wsize` (an `unsigned`). -/
def wsize_of (i_blkbits mount_wsize : Nat) : Nat :=
  let w0 := 2 ^ i_blkbits % 2 ^ 32
  let w1 := if mount_wsize ≠ 0 ∧ mount_wsize < w0 then mount_wsize else w0
  if w1 < PAGE_CACHE_SIZE then PAGE_CACHE_SIZE else w1

/-- Line 397: `max_pages = wsize >> PAGE_CACHE_SHIFT`. -/
def max_pages_of (i_blkbits mount_wsize : Nat) : Nat :=
  wsize_of i_blkbits mount_wsize / 2 ^ PAGE_CACHE_SHIFT

/-- The `list_for_each` of lines 432-438.  The first argument is the value the
local `capsnap` has before the loop; the result is its value after it. -/
def find_dirty_capsnap : Option CapSnap → List CapSnap → Option CapSnap
  | c, [] => c
  | _, r :: rs => if r.dirty ≠ 0 then some r else find_dirty_capsnap (some r) rs

/-- The head context when the inode has a realm (lines 441-442), else NULL. -/
def head_context (ci : Inode) : Option Ctx :=
  match ci.i_snap_realm with
  | some realm => realm.cached_context
  | none => none

/-- Lines 432-444: the new value of `capsnap` and the context selected. -/
def select_snapc (capsnap : Option CapSnap) (ci : Inode) : Option CapSnap × Option Ctx :=
  match find_dirty_capsnap capsnap ci.i_cap_snaps with
  | some r => if r.dirty ≠ 0 then (some r, some r.context) else (some r, head_context ci)
  | none => (none, head_context ci)

/-- Host primitive `pagevec_lookup_tag` for the dirty tag: up to `want` pages
tagged dirty at indices from `index` on, in index order, and the new value of
`index`, one past the last page found. -/
def pagevec_lookup_tag (pc : Nat → Page) (bound index want : Nat) : List Nat × Nat :=
  let found := ((List.range' index (bound - index)).filter fun k => (pc k).tag_dirty).take want
  (found, match found.getLast? with
          | some k => k + 1
          | none => index)

/-- Lines 471-473: `want`, computed in `pgoff_t`. -/
def want_pages (end_ index max_pages locked_pages : Nat) : Nat :=
  let a := (end_ + 2 ^ BITS_PER_LONG - index) % 2 ^ BITS_PER_LONG
  let b := (max_pages + 2 ^ BITS_PER_LONG - locked_pages) % 2 ^ BITS_PER_LONG
  let m := (min PAGEVEC_SIZE b + 2 ^ BITS_PER_LONG - 1) % 2 ^ BITS_PER_LONG
  (min a m + 1) % 2 ^ BITS_PER_LONG

/-- The page at index `k` replaced by `p`. -/
def set_pc (pc : Nat → Page) (k : Nat) (p : Page) : Nat → Page :=
  fun j => if j = k then p else pc j

/-- How the body of the `for` loop of lines 480-559 is left for one page:
`break`, `break` after `done = 1`, `continue`, or the page is taken into the
batch. -/
inductive Verdict where
  | stop
  | stop_done
  | skip
  | take
  deriving DecidableEq, Repr

/-- The scan parameters that stay fixed during one `ceph_writepages`. -/
structure ScanCfg where
  sync_none : Bool
  cyclic : Bool
  end_ : Nat
  max_pages : Nat

/-- Lines 481-551 for the page at index `k`: the verdict and the page as it is
left.  `nobatch` is `locked_pages == 0`, `next` the local `next`. -/
def examine_page (cfg : ScanCfg) (i_size : Int) (snapc : Ctx) (nobatch : Bool)
    (next k : Nat) (page : Page) : Verdict × Page :=
  if !nobatch && page.locked then (.stop, page)
  else
    let p1 := { page with locked := true }
    if !p1.dirty || !p1.mapped then (.stop, unlock_page p1)
    else if !cfg.cyclic && decide (cfg.end_ < k) then (.stop_done, unlock_page p1)
    else if next ≠ 0 ∧ k ≠ next then (.stop, unlock_page p1)
    else
      let p2 := if cfg.sync_none then p1 else wait_on_page_writeback p1
      if ((k * PAGE_CACHE_SIZE : Nat) : Int) ≥ i_size then (.stop_done, unlock_page p2)
      else if p2.writeback then (.stop, unlock_page p2)
      else if p2.private_ ≠ some snapc then
        (if nobatch then (.skip, unlock_page p2) else (.stop, unlock_page p2))
      else if !(clear_page_dirty_for_io p2).1 then (.stop, unlock_page p2)
      else (.take, set_page_writeback (clear_page_dirty_for_io p2).2)

/-- The locals of one pass of the `while` loop of line 456: the page cache, the
array `pages` (so `locked_pages` is its length), `next`, `done` and `first`. -/
structure Batch where
  pc : Nat → Page
  pages : List Nat
  next : Nat
  done : Bool
  first : Int

/-- The `for` loop of lines 480-559 over the pages of the pagevec not yet
visited, `i` being the loop counter.  Returns the locals and the final `i`. -/
def scan_pages (cfg : ScanCfg) (i_size : Int) (snapc : Ctx) :
    Nat → List Nat → Batch → Batch × Nat
  | i, [], b => (b, i)
  | i, k :: rest, b =>
    if ¬ b.pages.length < cfg.max_pages then (b, i)
    else
      match examine_page cfg i_size snapc (decide (b.pages = [])) b.next k (b.pc k) with
      | (.stop, p) => ({ b with pc := set_pc b.pc k p }, i)
      | (.stop_done, p) => ({ b with pc := set_pc b.pc k p, done := true }, i)
      | (.skip, p) => scan_pages cfg i_size snapc (i + 1) rest { b with pc := set_pc b.pc k p }
      | (.take, p) =>
        scan_pages cfg i_size snapc (i + 1) rest
          { pc := set_pc b.pc k p, pages := b.pages ++ [k], next := k + 1, done := b.done,
            first := if b.first < 0 then (i : Int) else b.first }

/-- How lines 469-584 are left: by the `break` of line 479, or on to line 561
with the locals and the scan cursor `index`. -/
inductive Gathered where
  | nothing (index : Nat)
  | batch (b : Batch) (index : Nat)

/-- Lines 469-584, with the `goto get_more_pages`; `bound` is the bound of the
page cache.  The shuffling of the pagevec left-overs (lines 576-583) only feeds
`pagevec_release` and is not represented. -/
def get_more_pages (cfg : ScanCfg) (bound : Nat) (i_size : Int) (snapc : Ctx) :
    Nat → Nat → Batch → Res Gathered
  | 0, _, _ => .timeout
  | fuel + 1, index, b =>
    let b0 := { b with first := -1 }
    let want := want_pages cfg.end_ index cfg.max_pages b.pages.length
    let pvec := (pagevec_lookup_tag b.pc bound index want).1
    let index1 := (pagevec_lookup_tag b.pc bound index want).2
    if pvec = [] ∧ b.pages = [] then .ok (.nothing index1)
    else
      let b1 := (scan_pages cfg i_size snapc 0 pvec b0).1
      let i := (scan_pages cfg i_size snapc 0 pvec b0).2
      if b1.pages = [] then .ok (.batch b1 index1)
      else if i ≠ 0 then
        (if b1.first < 0 then .bug
         else if pvec ≠ [] ∧ i = pvec.length ∧ b1.pages.length < cfg.max_pages then
           get_more_pages cfg bound i_size snapc fuel index1 b1
         else .ok (.batch b1 index1))
      else .ok (.batch b1 index1)

/-- Lines 599-604: the number of pages counted as written for the result `rc`
of a bulk write at `offset`. -/
def wrote_pages (rc offset : Int) : Nat :=
  if 0 ≤ rc then
    ((rc + offset % (PAGE_CACHE_SIZE : Int) + ((PAGE_CACHE_SIZE : Int) - 1))
      / (PAGE_CACHE_SIZE : Int)).toNat
  else 0

/-- Lines 611-623 for one page of the batch: cleaned when `covered` (that is
`i < wrote`), else redirtied; then writeback is ended and the page unlocked. -/
def clean_or_redirty (covered : Bool) (page : Page) : Res Page :=
  if covered then
    .ok (unlock_page (end_page_writeback { page with private_ := none, has_private := false }))
  else
    match ceph_redirty_page page with
    | .ok p => .ok (unlock_page (end_page_writeback p))
    | .bug => .bug
    | .timeout => .timeout

/-- What the loop of lines 608-624 changes: the page cache, the reference
counts of the contexts and `wbc->pages_skipped`. -/
structure Reconciled where
  pc : Nat → Page
  nref : Ctx → Int
  pages_skipped : Int

/-- The `for` loop of lines 608-624 over the pages of the batch not yet
visited, `i` being the loop counter. -/
def reconcile_pages (snapc : Ctx) (wrote : Nat) : Nat → List Nat → Reconciled → Res Reconciled
  | _, [], r => .ok r
  | i, k :: rest, r =>
    match clean_or_redirty (decide (i < wrote)) (r.pc k) with
    | .ok p =>
      reconcile_pages snapc wrote (i + 1) rest
        { pc := set_pc r.pc k p,
          nref := if i < wrote then ceph_put_snap_context (some snapc) r.nref else r.nref,
          pages_skipped := if i < wrote then r.pages_skipped else r.pages_skipped + 1 }
    | .bug => .bug
    | .timeout => .timeout

/-- Lines 586-632: the bulk write of the batch `b` (not empty, first page at
index `first_index`) under `snapc`, the reconciliation, and the advance of the
cursor and of the quota. -/
def write_batch (put : CapRefsPut) (env : WpEnv) (cfg : ScanCfg) (snapc : Ctx) (w : Wp)
    (b : Batch) (first_index : Nat) : Res Wp :=
  let offset : Int := ((first_index * PAGE_CACHE_SIZE : Nat) : Int)
  let len : Int := min (w.ci.i_size - offset) ((b.pages.length * PAGE_CACHE_SIZE : Nat) : Int)
  let rc := env.osdc w.log.length
  let wrote := wrote_pages rc offset
  match reconcile_pages snapc wrote 0 b.pages
      { pc := b.pc, nref := w.nref, pages_skipped := w.wbc.pages_skipped } with
  | .ok r =>
    let nr := w.wbc.nr_to_write - (b.pages.length : Int)
    let entry : BulkWrite :=
      { seen := w.seen, snapc := snapc, offset := offset, len := len,
        pages := b.pages.map fun k => (k, b.pc k), max_pages := cfg.max_pages, rc := rc,
        after := b.pages.map fun k => (k, r.pc k) }
    .ok { w with pc := r.pc, nref := r.nref,
                 ci := put w.ci (wrote : Int) (some snapc),
                 wbc := { w.wbc with pages_skipped := r.pages_skipped, nr_to_write := nr },
                 rc := rc, log := w.log ++ [entry],
                 index := b.next,
                 done := b.done || decide (nr ≤ 0) }
  | .bug => .bug
  | .timeout => .timeout

/-- Lines 426-445: the selection made at `retry`. -/
def retry_select (env : WpEnv) (w : Wp) : Wp :=
  let sel := select_snapc (w.capsnap.map (env.reread w.log.length)) w.ci
  { w with nref := ceph_get_snap_context sel.2 (ceph_put_snap_context w.snapc w.nref),
           snapc := sel.2, capsnap := sel.1, seen := w.ci.i_cap_snaps }

/-- Lines 647-656, reached when the `while` loop is left: either the wrap to
the beginning of the file (left, then `goto retry`), or the end of the scan
with the cursor persisted (right, then `out`). -/
def after_while (w : Wp) : Wp ⊕ Wp :=
  if w.should_loop ∧ ¬ w.done then .inl { w with should_loop := false, index := 0 }
  else if w.wbc.range_cyclic ∨ (w.range_whole ∧ w.wbc.nr_to_write > 0) then
    .inr { w with writeback_index := w.index }
  else .inr w

/-- Where the control of `ceph_writepages` stands: at the label `retry`, or at
the test of the `while` loop of line 456. -/
inductive Label where
  | retry
  | loop
  deriving DecidableEq, Repr

/-- Lines 426-656 of `ceph_writepages`: from the given label up to the label
`out`. -/
def writepages_run (put : CapRefsPut) (env : WpEnv) (cfg : ScanCfg) :
    Nat → Label → Wp → Res Wp
  | 0, _, _ => .timeout
  | fuel + 1, .retry, w =>
    match (retry_select env w).snapc with
    | none => .ok (retry_select env w)
    | some _ => writepages_run put env cfg fuel .loop (retry_select env w)
  | fuel + 1, .loop, w =>
    match w.snapc with
    | none => .ok w
    | some snapc =>
      if w.done ∨ w.end_ < w.index then
        match after_while w with
        | .inl w1 => writepages_run put env cfg fuel .retry w1
        | .inr w1 => .ok w1
      else
        match get_more_pages cfg w.bound w.ci.i_size snapc (w.bound + 1) w.index
            { pc := w.pc, pages := [], next := 0, done := w.done, first := -1 } with
        | .bug => .bug
        | .timeout => .timeout
        | .ok (.nothing index1) =>
          (match after_while { w with index := index1 } with
           | .inl w1 => writepages_run put env cfg fuel .retry w1
           | .inr w1 => .ok w1)
        | .ok (.batch b index1) =>
          match b.pages with
          | [] =>
            writepages_run put env cfg fuel .loop
              { w with pc := b.pc, index := index1, done := b.done }
          | k0 :: _ =>
            match write_batch put env cfg snapc { w with index := index1 } b k0 with
            | .bug => .bug
            | .timeout => .timeout
            | .ok w1 =>
              if w1.done then writepages_run put env cfg fuel .loop w1
              else writepages_run put env cfg fuel .retry w1

/-- The function `ceph_writepages(mapping, wbc)`.  Returns the C return value
and the final state; when the page vector cannot be allocated the result is
that of `generic_writepages`, whose own work is not represented. -/
def ceph_writepages (put : CapRefsPut) (env : WpEnv) (m : Mapping) : Res (Int × Wp) :=
  let max_pages := max_pages_of m.ci.i_blkbits env.mount_wsize
  let cyclic := m.wbc.range_cyclic
  let index : Nat :=
    if cyclic then m.writeback_index
    else ((m.wbc.range_start / (PAGE_CACHE_SIZE : Int)) % 2 ^ BITS_PER_LONG).toNat
  let end_ : Nat :=
    if cyclic then 2 ^ BITS_PER_LONG - 1
    else ((m.wbc.range_end / (PAGE_CACHE_SIZE : Int)) % 2 ^ BITS_PER_LONG).toNat
  let w0 : Wp :=
    { pc := m.pc, bound := m.bound, writeback_index := m.writeback_index, ci := m.ci,
      nref := m.nref, wbc := m.wbc, index := index, end_ := end_,
      range_whole := !cyclic && decide (m.wbc.range_start = 0 ∧
        m.wbc.range_end = 2 ^ 63 - 1),
      should_loop := cyclic, done := false, rc := 0, snapc := none, capsnap := none,
      seen := [], log := [] }
  if env.alloc_fails then .ok (env.generic_rc, w0)
  else
    let cfg : ScanCfg :=
      { sync_none := m.wbc.sync_none, cyclic := cyclic, end_ := end_, max_pages := max_pages }
    match writepages_run put env cfg (4 * m.bound + 4) .retry w0 with
    | .ok w =>
      .ok (if w.rc > 0 then 0 else w.rc,
           { w with nref := ceph_put_snap_context w.snapc w.nref })
    | .bug => .bug
    | .timeout => .timeout

/-! ## Sequences of operations on one page -/

/-- The operations on one page: `ceph_set_page_dirty` with a context argument;
`writepage_nounlock` called on the locked page as `ceph_write_begin` calls it,
with the result of its transport write; a write-back through the `writepage`
entry of `ceph_aops`, with its `wbc` and the result of the transport write; the
handling of the page by one pass of `ceph_writepages` (examined with the given
scan parameters and, if taken into the batch, cleaned or redirtied); and
`ceph_invalidatepage` with its offset.  `truncated` says that the
`ceph_set_page_dirty` the operation reaches finds `page->mapping` NULL under
the tree lock (lines 105-117). -/
inductive PageOp where
  | mark_dirty (snapc : Option Ctx) (truncated : Bool)
  | writepage (rc : Int) (truncated : Bool)
  | writepage_vfs (wbc : Wbc) (rc : Int) (truncated : Bool)
  | batch (cfg : ScanCfg) (nobatch : Bool) (next k : Nat) (snapc : Ctx) (covered : Bool)
  | invalidate (offset : Nat)

/-- One operation on the page.  The callers of `writepage_nounlock` and of
`ceph_invalidatepage` hold the page lock.  The host calls the `writepage` entry
only for a page of the mapping that is dirty and not under writeback, with the
page locked and after `clear_page_dirty_for_io` has cleared its dirty flag, as
the comment of lines 286-290 expects; any other page it unlocks and leaves.
For a page that a batch cleans, the release of its context and of its
accounting reference (line 626, for this one page) is part of the operation. -/
def apply_op (put : CapRefsPut) (s : PageSt) : PageOp → Res PageSt
  | .mark_dirty c truncated =>
    match ceph_set_page_dirty put truncated s c with
    | .ok (_, s1) => .ok s1
    | .bug => .bug
    | .timeout => .timeout
  | .writepage rc truncated =>
    match writepage_nounlock put truncated rc
        { s with page := { s.page with locked := true } } none with
    | .ok (_, s1, _) => .ok s1
    | .bug => .bug
    | .timeout => .timeout
  | .writepage_vfs wbc rc truncated =>
    let p := { s.page with locked := true }
    if p.mapped && !p.writeback && (clear_page_dirty_for_io p).1 then
      match ceph_writepage put truncated rc
          { s with page := (clear_page_dirty_for_io p).2 } (some wbc) with
      | .ok (_, s1, _) => .ok s1
      | .bug => .bug
      | .timeout => .timeout
    else .ok { s with page := unlock_page p }
  | .batch cfg nobatch next k snapc covered =>
    match examine_page cfg s.ci.i_size snapc nobatch next k s.page with
    | (.take, p) =>
      (match clean_or_redirty covered p with
       | .ok p1 =>
         .ok { s with page := p1,
                      nref := if covered then ceph_put_snap_context (some snapc) s.nref
                              else s.nref,
                      ci := if covered then put s.ci 1 (some snapc) else s.ci }
       | .bug => .bug
       | .timeout => .timeout)
    | (_, p) => .ok { s with page := p }
  | .invalidate offset =>
    ceph_invalidatepage put { s with page := { s.page with locked := true } } offset

/-- A sequence of operations on the page, stopped by the first fatal fault. -/
def run_ops (put : CapRefsPut) : PageSt → List PageOp → Res PageSt
  | s, [] => .ok s
  | s, op :: ops =>
    match apply_op put s op with
    | .ok s1 => run_ops put s1 ops
    | .bug => .bug
    | .timeout => .timeout

/-- The steps that set or keep the dirty flag of a page and leave it with no
context: a `ceph_set_page_dirty` of a clean page with no context that has no
mapping (line 30) or loses it to a truncate (lines 105-117), called directly or
by a `writepage_nounlock` whose write fails; and a full-page
`ceph_invalidatepage` of a dirty page of the mapping (lines 181-189). -/
def leaves_dirty_detached (s : PageSt) : PageOp → Bool
  | .mark_dirty _ truncated =>
    !s.page.dirty && s.page.private_.isNone && (!s.page.mapped || truncated)
  | .writepage rc truncated =>
    decide (rc < 0) && s.page.mapped && !s.page.dirty && s.page.private_.isNone && truncated
  | .writepage_vfs _ _ _ => false
  | .batch _ _ _ _ _ _ => false
  | .invalidate offset => decide (offset = 0) && s.page.dirty && s.page.mapped

/-- The step that clears the dirty flag of a page and leaves its context
attached: a write-back through the `writepage` entry that succeeds, of a page
that carries a context (lines 326-332 never detach it). -/
def leaves_clean_attached (s : PageSt) : PageOp → Bool
  | .writepage_vfs _ rc _ =>
    s.page.mapped && !s.page.writeback && s.page.dirty && s.page.private_.isSome &&
      decide (0 ≤ rc)
  | _ => false

/-- Whether no step of the run of `ops` from `s` is one that `ex` marks, each
step being judged at the state it starts from. -/
def run_avoids (put : CapRefsPut) (ex : PageSt → PageOp → Bool) :
    PageSt → List PageOp → Bool
  | _, [] => true
  | s, op :: ops =>
    !ex s op &&
      match apply_op put s op with
      | .ok s1 => run_avoids put ex s1 ops
      | _ => true

/-! ## Example states -/

/-- A clean, locked, up-to-date page attached to its mapping, with no context. -/
def clean_page : Page :=
  { mapped := true, locked := true, dirty := false, writeback := false,
    uptodate := true, checked := false, tag_dirty := false, private_ := none,
    has_private := false }

/-- A locked page that is dirty under context `c`. -/
def dirty_page (c : Ctx) : Page :=
  { clean_page with dirty := true, tag_dirty := true, private_ := some c,
                    has_private := true }

/-- An inode whose head context is `head`, with the given accounting. -/
def mk_inode (total head_count : Int) (caps : List CapSnap) (head : Ctx) : Inode :=
  { i_wrbuffer_ref := total, i_wrbuffer_ref_head := head_count, i_cap_snaps := caps,
    i_snap_realm := some { cached_context := some head }, i_size := 8192, i_blkbits := 22 }

/-- A page state around a page and an inode: zero bytes, all reference counts one. -/
def mk_state (p : Page) (ci : Inode) : PageSt :=
  { page := p, data := fun _ => 0, ci := ci, nref := fun _ => 1 }

/-- The state a run ends in, or `d` if it met a fatal fault. -/
def final_state (r : Res PageSt) (d : PageSt) : PageSt :=
  match r with
  | .ok s => s
  | _ => d

/-- The `wbc` of a write-back of one page. -/
def example_wbc : Wbc :=
  { range_cyclic := false, range_start := 0, range_end := 4095, sync_none := true,
    nr_to_write := 1, pages_skipped := 0 }

/-- A sequence of operations: the page is dirtied under the head; a write-back
through the `writepage` entry fails; the page is invalidated in part; a
`ceph_set_page_dirty` that would race with a truncate finds it dirty; a batch
takes the page and cleans it; the clean page is invalidated in full; a direct
`writepage_nounlock` of the clean page succeeds; the page is dirtied under the
head again; and a direct `writepage_nounlock` of the dirty page succeeds. -/
def example_ops : List PageOp :=
  [.mark_dirty none false, .writepage_vfs example_wbc (-5) false, .invalidate 7,
   .mark_dirty none true,
   .batch { sync_none := true, cyclic := true, end_ := 7, max_pages := 4 } true 0 0 1 true,
   .invalidate 0, .writepage 0 false, .mark_dirty none false, .writepage 4096 false]

/-- A clean mapped page with no context, of an inode whose head context is 1
and whose accounting is all zero. -/
def example_start : PageSt := mk_state clean_page (mk_inode 0 0 [] 1)

/-- The state `example_start` with the page detached from its mapping. -/
def example_unmapped : PageSt :=
  mk_state { clean_page with mapped := false } (mk_inode 0 0 [] 1)

/-- The state in which the run of `example_ops` from `example_start` ends. -/
def example_end : PageSt :=
  final_state (run_ops ceph_put_wrbuffer_cap_refs example_start example_ops) example_start

/-- A state for a short copy: the page is clean and not yet up to date, the
byte at position `p` holds `p + 7`, and the file is 110 bytes long. -/
def example_short_copy : PageSt :=
  { page := { clean_page with uptodate := false }, data := fun p => p + 7,
    ci := { mk_inode 0 0 [] 1 with i_size := 110 }, nref := fun _ => 1 }

/-- The result of a run of `ceph_writepages`, or `d` if it met a fatal fault. -/
def run_result (r : Res (Int × Wp)) (d : Int × Wp) : Int × Wp :=
  match r with
  | .ok x => x
  | _ => d

/-- A page cache with two dirty pages: the page at index 0 is dirty under
context 2 and the page at index 1 under context 1. -/
def example_pc : Nat → Page := fun k =>
  if k = 0 then { dirty_page 2 with locked := false }
  else if k = 1 then { dirty_page 1 with locked := false }
  else { clean_page with locked := false }

/-- A mapping over `example_pc` for a cyclic scan: the head context is 2 and
the only retired epoch is context 1, with one dirty page. -/
def example_mapping : Mapping :=
  { pc := example_pc, bound := 2, writeback_index := 0,
    ci := mk_inode 2 1 [{ context := 1, dirty := 1 }] 2,
    nref := fun _ => 1,
    wbc := { range_cyclic := true, range_start := 0, range_end := 0, sync_none := true,
             nr_to_write := 16, pages_skipped := 0 } }

/-- Collaborators for which every bulk write returns `rc`, and a record that
left the list of retired epochs reads as drained. -/
def example_env (rc : Int) : WpEnv :=
  { mount_wsize := 0, alloc_fails := false, generic_rc := 0, osdc := fun _ => rc,
    reread := fun _ c => { c with dirty := 0 } }

/-- Collaborators for which the first bulk write fails with -5 and every later
one writes 4096 bytes. -/
def example_env_first_fails : WpEnv :=
  { mount_wsize := 0, alloc_fails := false, generic_rc := 0,
    osdc := fun n => if n = 0 then -5 else 4096,
    reread := fun _ c => { c with dirty := 0 } }

/-- The locals of `ceph_writepages` at `retry` for `example_mapping`, with the
head context selected. -/
def example_wp : Wp :=
  { pc := example_pc, bound := 2, writeback_index := 0,
    ci := mk_inode 2 1 [] 2, nref := fun _ => 1,
    wbc := example_mapping.wbc, index := 0, end_ := 2 ^ 64 - 1, range_whole := false,
    should_loop := true, done := false, rc := 0, snapc := some 2, capsnap := none,
    seen := [], log := [] }

/-- A mapping for a scan of the whole file: the pages at the indices 0, 1, 2
and 5 are dirty under the head context 2, in a file of 30000 bytes. -/
def example_mapping3 : Mapping :=
  { pc := fun k =>
      if k < 3 ∨ k = 5 then { dirty_page 2 with locked := false }
      else { clean_page with locked := false },
    bound := 8, writeback_index := 0,
    ci := { mk_inode 4 4 [] 2 with i_size := 30000 },
    nref := fun _ => 1,
    wbc := { range_cyclic := false, range_start := 0, range_end := 2 ^ 63 - 1,
             sync_none := true, nr_to_write := 16, pages_skipped := 0 } }

/-- Scan parameters of the scan of the whole file that `ceph_writepages` makes
of `example_mapping3`. -/
def example_cfg3 : ScanCfg :=
  { sync_none := true, cyclic := false, end_ := 2 ^ 51 - 1, max_pages := 1024 }

/-- The locals of `ceph_writepages` for `example_mapping3` when the first batch
has been gathered under the head context 2. -/
def example_wp3 : Wp :=
  { pc := example_mapping3.pc, bound := 8, writeback_index := 0,
    ci := example_mapping3.ci, nref := fun _ => 1,
    wbc := example_mapping3.wbc, index := 3, end_ := 2 ^ 51 - 1, range_whole := true,
    should_loop := false, done := false, rc := 0, snapc := some 2, capsnap := none,
    seen := [], log := [] }

/-- The first batch of the scan of `example_mapping3`: the pages at the indices
0, 1 and 2, each locked, with its dirty flag cleared and writeback set. -/
def example_batch3 : Batch :=
  { pc := fun k =>
      if k < 3 then
        set_page_writeback (clear_page_dirty_for_io { dirty_page 2 with locked := true }).2
      else example_mapping3.pc k,
    pages := [0, 1, 2], next := 3, done := false, first := 0 }

/-! ## Invariants of `ceph_writepages` -/

/-- The state of the locals while a batch is assembled under `snapc`, in a
pass that started at index `lo`: the batch holds at most `max_pages` pages, at
consecutive indices within `[lo, bound)`, `next` is one past the last of them,
and every page of the batch is locked, not dirty, under writeback and attached
to `snapc`. -/
def BatchOk (cfg : ScanCfg) (snapc : Ctx) (lo bound : Nat) (b : Batch) : Prop :=
  b.pages.length ≤ cfg.max_pages ∧
  (∃ a, b.pages = List.range' a b.pages.length ∧
    (b.pages ≠ [] → lo ≤ a ∧ a + b.pages.length ≤ bound ∧ b.next = a + b.pages.length)) ∧
  (∀ k ∈ b.pages, (b.pc k).locked = true ∧ (b.pc k).dirty = false ∧
    (b.pc k).writeback = true ∧ (b.pc k).private_ = some snapc ∧ (b.pc k).mapped = true ∧
    (cfg.cyclic = false → k ≤ cfg.end_))

/-- The context `c` agrees with the oldest-first rule for the retired epochs
`seen`: if some record has a nonzero count, `c` is the context of the first
such record. -/
def SelOk (seen : List CapSnap) (c : Ctx) : Prop :=
  ∀ r, seen.find? (fun r => decide (r.dirty ≠ 0)) = some r → c = r.context

/-- A well-formed bulk write: its context follows the oldest-first rule for the
retired epochs seen at the preceding selection; it has between 1 and
`max_pages` pages, at consecutive indices; and every page handed over is
attached to the context of the request, locked, not dirty and under
writeback. -/
def GoodWrite (e : BulkWrite) : Prop :=
  SelOk e.seen e.snapc ∧
  (∀ kp ∈ e.pages, kp.2.private_ = some e.snapc ∧ kp.2.dirty = false ∧
    kp.2.writeback = true ∧ kp.2.locked = true) ∧
  e.pages ≠ [] ∧ e.pages.length ≤ e.max_pages ∧
  (∃ a, e.pages.map Prod.fst = List.range' a e.pages.length)

/-- The result of the last bulk write of a log, 0 for an empty log. -/
def last_rc (log : List BulkWrite) : Int :=
  match log.getLast? with
  | some e => e.rc
  | none => 0

/-- What holds of the locals of `ceph_writepages` at the labels `retry` and at
the test of the `while` loop: every bulk write issued so far is well formed and
got the answer of the transport for its number, `rc` is the result of the last
one, and the selected context follows the oldest-first rule. -/
def WpInv (env : WpEnv) (cfg : ScanCfg) (w : Wp) : Prop :=
  (∀ e ∈ w.log, GoodWrite e ∧ e.max_pages = cfg.max_pages) ∧
  (∀ i (h : i < w.log.length), w.log[i].rc = env.osdc i) ∧
  w.rc = last_rc w.log ∧
  (∀ c, w.snapc = some c → SelOk w.seen c)

/-- Fuel that suffices for `writepages_run` from a label: two units for every
index the cursor can still advance over, counting the wrap to index 0 of a
cyclic scan. -/
def fuel_needed (label : Label) (w : Wp) : Nat :=
  2 * ((if w.should_loop then w.bound + 1 else 0) + (w.bound - w.index)) +
    (match label with
     | .retry => 2
     | .loop => 1)

/-- The number of pages a bulk write counts as skipped: the pages of its batch
from position `wrote` on. -/
def skipped_of (e : BulkWrite) : Nat :=
  e.pages.length - wrote_pages e.rc e.offset

/-- What the loop of lines 608-624 leaves of a bulk write: the same pages, none
of them under writeback or locked; a page at a position below `wrote` has no
context and is not dirty, every other page is dirty with the context of the
request still attached. -/
def SettledWrite (e : BulkWrite) : Prop :=
  e.after.map Prod.fst = e.pages.map Prod.fst ∧
  (∀ j (h : j < e.after.length),
    e.after[j].2.writeback = false ∧ e.after[j].2.locked = false ∧
    (j < wrote_pages e.rc e.offset →
      e.after[j].2.private_ = none ∧ e.after[j].2.dirty = false) ∧
    (wrote_pages e.rc e.offset ≤ j →
      e.after[j].2.private_ = some e.snapc ∧ e.after[j].2.dirty = true))

/-- The skipped counter along a run that started with the value `sk0`: every
bulk write issued so far was settled as `SettledWrite` says, and
`wbc->pages_skipped` has grown by the pages the bulk writes count as skipped. -/
def SkipInv (sk0 : Int) (w : Wp) : Prop :=
  (∀ e ∈ w.log, SettledWrite e) ∧
  w.wbc.pages_skipped = sk0 + (((w.log.map skipped_of).sum : Nat) : Int)

/-! # Theorems -/

/-! ## `ceph_set_page_dirty` -/

/-- C5: on a page that is attached to a mapping and already dirty,
`ceph_set_page_dirty` returns 0 for every context argument and leaves the whole
state (counters, retired-epoch records, attached context, flags) unchanged; and
after a first call on a clean mapped page a second call returns 0 and changes
nothing, so two calls change the counters exactly as one does. -/
theorem set_page_dirty_idempotent (put : CapRefsPut) (s : PageSt)
    (hm : s.page.mapped = true) (hd : s.page.dirty = true) :
    (∀ (truncated : Bool) (snapc : Option Ctx),
        ceph_set_page_dirty put truncated s snapc = .ok (0, s)) ∧
    (∀ (s0 s1 : PageSt) (t1 t2 : Bool) (c1 c2 : Option Ctx) (r : Int),
        s0.page.mapped = true → s0.page.dirty = false →
        ceph_set_page_dirty put t1 s0 c1 = .ok (r, s1) →
        r = 1 ∧ ceph_set_page_dirty put t2 s1 c2 = .ok (0, s1)) := by
  refine ⟨?_, ?_⟩
  · intro truncated snapc
    obtain ⟨page, data, ci, nref⟩ := s
    obtain ⟨m, l, d, w, u, c, t, pr, hp⟩ := page
    simp only at hm hd
    subst hm hd
    simp [ceph_set_page_dirty, TestSetPageDirty]
  · intro s0 s1 t1 t2 c1 c2 r hm0 hd0 h
    obtain ⟨page, data, ci, nref⟩ := s0
    obtain ⟨m, l, d, w, u, c, t, pr, hp⟩ := page
    simp only at hm0 hd0
    subst hm0 hd0
    simp only [ceph_set_page_dirty, TestSetPageDirty, Bool.not_true, Bool.false_eq_true,
      if_false] at h
    cases hr : ci.i_snap_realm with
    | none => simp [hr] at h
    | some realm =>
      simp only [hr] at h
      have key : ∀ (pg : Page) (ci1 : Inode) (nr : Ctx → Int) (sc : Option Ctx),
          pg.dirty = true →
          set_page_dirty_finish put t1 pg data ci1 nr sc = .ok (r, s1) →
          r = 1 ∧ ceph_set_page_dirty put t2 s1 c2 = .ok (0, s1) := by
        intro pg ci1 nr sc hpd hfin
        unfold set_page_dirty_finish at hfin
        cases t1 <;> simp only [Bool.false_eq_true, if_false, if_true, Res.ok.injEq,
          Prod.mk.injEq] at hfin <;> obtain ⟨h1, h2⟩ := hfin <;> subst h1 h2 <;>
          simp [ceph_set_page_dirty, TestSetPageDirty, hpd]
      cases c1 with
      | none => exact key _ _ _ _ rfl h
      | some c =>
        simp only at h
        split at h
        · exact key _ _ _ _ rfl h
        · split at h
          · simp at h
          · exact key _ _ _ _ rfl h

/-- Witness of C5 on a page dirty under context 1. -/
theorem set_page_dirty_idempotent_witness :
    (mk_state (dirty_page 1) (mk_inode 1 1 [] 1)).page.mapped = true ∧
    (mk_state (dirty_page 1) (mk_inode 1 1 [] 1)).page.dirty = true ∧
    ((∀ (truncated : Bool) (snapc : Option Ctx),
        ceph_set_page_dirty ceph_put_wrbuffer_cap_refs truncated
          (mk_state (dirty_page 1) (mk_inode 1 1 [] 1)) snapc
          = .ok (0, mk_state (dirty_page 1) (mk_inode 1 1 [] 1))) ∧
    (∀ (s0 s1 : PageSt) (t1 t2 : Bool) (c1 c2 : Option Ctx) (r : Int),
        s0.page.mapped = true → s0.page.dirty = false →
        ceph_set_page_dirty ceph_put_wrbuffer_cap_refs t1 s0 c1 = .ok (r, s1) →
        r = 1 ∧ ceph_set_page_dirty ceph_put_wrbuffer_cap_refs t2 s1 c2 = .ok (0, s1))) :=
  ⟨rfl, rfl, set_page_dirty_idempotent ceph_put_wrbuffer_cap_refs
    (mk_state (dirty_page 1) (mk_inode 1 1 [] 1)) rfl rfl⟩

/-- C6: on a clean page that stays attached to its mapping, of an inode with a
snap realm, `ceph_set_page_dirty` with no explicit context (and so
`ceph_set_page_dirty_vfs`) returns 1, adds exactly one to the total count and
to the head count, leaves the retired-epoch records as they were, sets the
dirty flag and attaches the head context `cached_context` read during the
call, replacing (and releasing) the previous attachment. -/
theorem set_page_dirty_head (put : CapRefsPut) (s : PageSt) (realm : SnapRealm)
    (hm : s.page.mapped = true) (hd : s.page.dirty = false)
    (hr : s.ci.i_snap_realm = some realm) :
    ceph_set_page_dirty put false s none =
      .ok (1, { page := { s.page with dirty := true, tag_dirty := true,
                                      private_ := realm.cached_context,
                                      has_private := true },
                data := s.data,
                ci := { s.ci with i_wrbuffer_ref := s.ci.i_wrbuffer_ref + 1,
                                  i_wrbuffer_ref_head := s.ci.i_wrbuffer_ref_head + 1 },
                nref := ceph_put_snap_context s.page.private_
                          (ceph_get_snap_context realm.cached_context s.nref) }) ∧
    ceph_set_page_dirty_vfs put false s = ceph_set_page_dirty put false s none := by
  refine ⟨?_, rfl⟩
  simp [ceph_set_page_dirty, TestSetPageDirty, hm, hd, hr, set_page_dirty_finish]

/-- Witness of C6: a clean page of an inode whose head context is 2. -/
theorem set_page_dirty_head_witness :
    (mk_state clean_page (mk_inode 0 0 [] 2)).page.mapped = true ∧
    (mk_state clean_page (mk_inode 0 0 [] 2)).page.dirty = false ∧
    (mk_state clean_page (mk_inode 0 0 [] 2)).ci.i_snap_realm
      = some { cached_context := some 2 } ∧
    (ceph_set_page_dirty ceph_put_wrbuffer_cap_refs false
        (mk_state clean_page (mk_inode 0 0 [] 2)) none =
      .ok (1, { page := { (mk_state clean_page (mk_inode 0 0 [] 2)).page with
                            dirty := true, tag_dirty := true,
                            private_ := (SnapRealm.mk (some 2)).cached_context,
                            has_private := true },
                data := (mk_state clean_page (mk_inode 0 0 [] 2)).data,
                ci := { (mk_state clean_page (mk_inode 0 0 [] 2)).ci with
                          i_wrbuffer_ref :=
                            (mk_state clean_page (mk_inode 0 0 [] 2)).ci.i_wrbuffer_ref + 1,
                          i_wrbuffer_ref_head :=
                            (mk_state clean_page (mk_inode 0 0 [] 2)).ci.i_wrbuffer_ref_head + 1 },
                nref := ceph_put_snap_context
                          (mk_state clean_page (mk_inode 0 0 [] 2)).page.private_
                          (ceph_get_snap_context (SnapRealm.mk (some 2)).cached_context
                            (mk_state clean_page (mk_inode 0 0 [] 2)).nref) }) ∧
    ceph_set_page_dirty_vfs ceph_put_wrbuffer_cap_refs false
        (mk_state clean_page (mk_inode 0 0 [] 2)) =
      ceph_set_page_dirty ceph_put_wrbuffer_cap_refs false
        (mk_state clean_page (mk_inode 0 0 [] 2)) none) :=
  ⟨rfl, rfl, rfl, set_page_dirty_head ceph_put_wrbuffer_cap_refs
    (mk_state clean_page (mk_inode 0 0 [] 2)) { cached_context := some 2 } rfl rfl rfl⟩

/-- The local `capsnap` of lines 60-69 is NULL after the loop only if the list
of retired epochs is empty. -/
theorem capsnap_dirty_inc_none (c : Ctx) (caps : List CapSnap) :
    (capsnap_dirty_inc c caps).2 = none ↔ caps = [] := by
  cases caps with
  | nil => simp [capsnap_dirty_inc]
  | cons r rs =>
    simp only [capsnap_dirty_inc]
    split
    · simp
    · split <;> simp

/-- When no record has context `c`, the loop of lines 61-68 changes no record. -/
theorem capsnap_dirty_inc_no_match (c : Ctx) (caps : List CapSnap)
    (h : ∀ r ∈ caps, r.context ≠ c) : (capsnap_dirty_inc c caps).1 = caps := by
  induction caps with
  | nil => rfl
  | cons r rs ih =>
    have hr : r.context ≠ c := h r (List.mem_cons_self _ _)
    have ih1 := ih (fun x hx => h x (List.mem_cons_of_mem _ hx))
    simp only [capsnap_dirty_inc, hr, if_false]
    split <;> rename_i heq <;> simp [heq] at ih1 <;> simp [ih1]

/-- The fatal fault of `ceph_set_page_dirty` under an explicit context other
than the head: on a clean mapped page it fires exactly when the list of retired
epochs is empty, whether or not a record with that context exists. -/
theorem set_page_dirty_bug_iff_empty (put : CapRefsPut) (truncated : Bool) (s : PageSt)
    (realm : SnapRealm) (c : Ctx) (hm : s.page.mapped = true) (hd : s.page.dirty = false)
    (hr : s.ci.i_snap_realm = some realm) (hc : some c ≠ realm.cached_context) :
    ceph_set_page_dirty put truncated s (some c) = .bug ↔ s.ci.i_cap_snaps = [] := by
  have hnone := capsnap_dirty_inc_none c s.ci.i_cap_snaps
  simp only [ceph_set_page_dirty, TestSetPageDirty, hm, hd, hr, hc, Bool.not_true,
    Bool.false_eq_true, if_false]
  split
  · rename_i heq
    simp only [heq, true_iff] at hnone
    simp [hnone]
  · rename_i heq
    simp only [heq] at hnone
    have hne : s.ci.i_cap_snaps ≠ [] := fun h => by simp [h] at hnone
    simp only [hne, iff_false]
    unfold set_page_dirty_finish
    split <;> simp

/-- C7, the code at the failing input: the only retired record has context 1,
the head context is 3 and a clean page is dirtied under context 2.  No record
has context 2, yet the call does not fault: it returns 1, adds one to the total
count, changes neither the record nor the head count, and attaches context 2. -/
theorem set_page_dirty_missing_record :
    (∀ r ∈ (mk_inode 0 0 [{ context := 1, dirty := 0 }] 3).i_cap_snaps, r.context ≠ 2) ∧
    ∃ s1, ceph_set_page_dirty ceph_put_wrbuffer_cap_refs false
        (mk_state clean_page (mk_inode 0 0 [{ context := 1, dirty := 0 }] 3)) (some 2)
        = .ok (1, s1) ∧
      s1.ci = mk_inode 1 0 [{ context := 1, dirty := 0 }] 3 ∧
      s1.page = dirty_page 2 := by
  refine ⟨by decide, _, rfl, by decide, by decide⟩

/-! ## `ceph_invalidatepage` -/

/-- C8: on a locked page attached to a mapping, a full-page
`ceph_invalidatepage` of a dirty page makes exactly one call of the accounting
helper, for one reference against the attached context, releases one reference
of that context and clears `private_`; on a clean page with no context it
changes no accounting and no attachment; and on a clean page it ends in a fatal
fault exactly when a context is attached. -/
theorem invalidatepage_full (put : CapRefsPut) (s : PageSt)
    (hl : s.page.locked = true) (hm : s.page.mapped = true) :
    (s.page.dirty = true →
      ceph_invalidatepage put s 0 =
        .ok { page := { s.page with checked := false, private_ := none,
                                    has_private := false },
              data := s.data,
              ci := put s.ci 1 s.page.private_,
              nref := ceph_put_snap_context s.page.private_ s.nref }) ∧
    (s.page.dirty = false →
      (s.page.private_ = none →
        ceph_invalidatepage put s 0 =
          .ok { s with page := { s.page with checked := false } }) ∧
      (ceph_invalidatepage put s 0 = .bug ↔ s.page.private_ ≠ none)) := by
  refine ⟨?_, ?_⟩
  · intro hd
    simp [ceph_invalidatepage, hl, hm, hd]
  · intro hd
    cases hp : s.page.private_ <;> simp [ceph_invalidatepage, hl, hd, hp]

/-- Witness of C8 on a page dirty under context 1 with one accounting reference. -/
theorem invalidatepage_full_witness :
    (mk_state (dirty_page 1) (mk_inode 1 1 [] 1)).page.locked = true ∧
    (mk_state (dirty_page 1) (mk_inode 1 1 [] 1)).page.mapped = true ∧
    (((mk_state (dirty_page 1) (mk_inode 1 1 [] 1)).page.dirty = true →
      ceph_invalidatepage ceph_put_wrbuffer_cap_refs
          (mk_state (dirty_page 1) (mk_inode 1 1 [] 1)) 0 =
        .ok { page := { (mk_state (dirty_page 1) (mk_inode 1 1 [] 1)).page with
                          checked := false, private_ := none, has_private := false },
              data := (mk_state (dirty_page 1) (mk_inode 1 1 [] 1)).data,
              ci := ceph_put_wrbuffer_cap_refs
                      (mk_state (dirty_page 1) (mk_inode 1 1 [] 1)).ci 1
                      (mk_state (dirty_page 1) (mk_inode 1 1 [] 1)).page.private_,
              nref := ceph_put_snap_context
                        (mk_state (dirty_page 1) (mk_inode 1 1 [] 1)).page.private_
                        (mk_state (dirty_page 1) (mk_inode 1 1 [] 1)).nref }) ∧
    ((mk_state (dirty_page 1) (mk_inode 1 1 [] 1)).page.dirty = false →
      ((mk_state (dirty_page 1) (mk_inode 1 1 [] 1)).page.private_ = none →
        ceph_invalidatepage ceph_put_wrbuffer_cap_refs
            (mk_state (dirty_page 1) (mk_inode 1 1 [] 1)) 0 =
          .ok { (mk_state (dirty_page 1) (mk_inode 1 1 [] 1)) with
                  page := { (mk_state (dirty_page 1) (mk_inode 1 1 [] 1)).page with
                              checked := false } }) ∧
      (ceph_invalidatepage ceph_put_wrbuffer_cap_refs
            (mk_state (dirty_page 1) (mk_inode 1 1 [] 1)) 0 = .bug ↔
        (mk_state (dirty_page 1) (mk_inode 1 1 [] 1)).page.private_ ≠ none))) :=
  ⟨rfl, rfl, invalidatepage_full ceph_put_wrbuffer_cap_refs
    (mk_state (dirty_page 1) (mk_inode 1 1 [] 1)) rfl rfl⟩

/-- What `examine_page` does to the page it looks at: the attachment and the
mapping are never changed; a page is taken only if it is dirty, mapped,
attached to `snapc`, at the expected index and inside the file, and it is then
locked, not dirty and under writeback; a page that is not taken keeps its dirty
flag, and is left untouched when the lock could not be taken. -/
theorem examine_page_flags (cfg : ScanCfg) (i_size : Int) (snapc : Ctx) (nobatch : Bool)
    (next k : Nat) (page p : Page) (v : Verdict)
    (h : examine_page cfg i_size snapc nobatch next k page = (v, p)) :
    p.private_ = page.private_ ∧ p.mapped = page.mapped ∧
    (v = .take →
      page.dirty = true ∧ page.mapped = true ∧ page.private_ = some snapc ∧
      (nobatch = false → page.locked = false) ∧
      (next ≠ 0 → k = next) ∧
      (cfg.cyclic = false → k ≤ cfg.end_) ∧
      ((k * PAGE_CACHE_SIZE : Nat) : Int) < i_size ∧
      p.dirty = false ∧ p.writeback = true ∧ p.locked = true) ∧
    (v ≠ .take →
      p.dirty = page.dirty ∧ (p.writeback = true → page.writeback = true) ∧
      (nobatch = false → page.locked = true → p = page) ∧
      (v = .skip → nobatch = true)) := by
  obtain ⟨m, l, d, w, u, ck, t, pr, hp⟩ := page
  unfold examine_page at h
  cases hs : cfg.sync_none <;>
  simp only [hs, unlock_page, wait_on_page_writeback, clear_page_dirty_for_io,
    set_page_writeback, Bool.false_eq_true, if_false, if_true] at h <;>
  split_ifs at h <;> simp only [Prod.mk.injEq] at h <;> obtain ⟨rfl, rfl⟩ := h <;>
    simp_all

/-- What `clean_or_redirty` does to a page. -/
theorem clean_or_redirty_flags (covered : Bool) (page p1 : Page)
    (h : clean_or_redirty covered page = .ok p1) :
    p1.writeback = false ∧ p1.locked = false ∧ p1.mapped = page.mapped ∧
    (covered = true → p1.private_ = none ∧ p1.dirty = page.dirty) ∧
    (covered = false → page.locked = true ∧ p1.private_ = page.private_ ∧ p1.dirty = true) := by
  obtain ⟨m, l, d, w, u, ck, t, pr, hp⟩ := page
  unfold clean_or_redirty ceph_redirty_page at h
  simp only [TestSetPageDirty, unlock_page, end_page_writeback] at h
  cases covered <;> cases l <;> cases d <;> cases m <;> simp at h <;> subst h <;> simp

/-! ## The attachment of a context to a page -/

/-- The spec-modelled accounting helper leaves the realm of the inode alone. -/
theorem put_wrbuffer_cap_refs_realm (ci : Inode) (n : Int) (c : Option Ctx) :
    (ceph_put_wrbuffer_cap_refs ci n c).i_snap_realm = ci.i_snap_realm := by
  unfold ceph_put_wrbuffer_cap_refs
  split
  · split <;> rfl
  · rfl
  · rfl

/-- What a call of `ceph_set_page_dirty` does to the flags, the attachment and
the realm, with or without truncation race. -/
theorem set_page_dirty_step (put : CapRefsPut) (truncated : Bool) (s s1 : PageSt)
    (c : Option Ctx) (r : Int)
    (h : ceph_set_page_dirty put truncated s c = .ok (r, s1)) :
    s1.page.dirty = true ∧ s1.page.writeback = s.page.writeback ∧
    ((∀ ci n c, (put ci n c).i_snap_realm = ci.i_snap_realm) →
      s1.ci.i_snap_realm = s.ci.i_snap_realm) ∧
    (s.page.mapped = false ∨ s.page.dirty = true ∨ truncated = true →
      s1.page.private_ = s.page.private_) ∧
    (s.page.mapped = true → s.page.dirty = false → truncated = false →
      s1.page.private_ = head_context s.ci ∨
        (∃ x, c = some x ∧ s1.page.private_ = some x)) := by
  obtain ⟨page, data, ci, nref⟩ := s
  obtain ⟨m, l, d, w, u, ck, t, pr, hp⟩ := page
  unfold ceph_set_page_dirty at h
  simp only [TestSetPageDirty] at h
  cases m <;> cases d <;>
    simp only [Bool.not_true, Bool.not_false, Bool.false_eq_true, if_false, if_true,
      Res.ok.injEq, Prod.mk.injEq] at h
  · obtain ⟨-, rfl⟩ := h; simp
  · obtain ⟨-, rfl⟩ := h; simp
  · cases hr : ci.i_snap_realm with
    | none => simp [hr] at h
    | some realm =>
      simp only [hr] at h
      cases c with
      | none =>
        cases truncated <;>
          simp only [set_page_dirty_finish, Bool.false_eq_true, if_false, if_true, Res.ok.injEq,
            Prod.mk.injEq] at h <;>
          obtain ⟨-, rfl⟩ := h
        · simp [head_context, hr]
        · simp only [true_and, Bool.true_eq_false, false_implies, implies_true, and_true]
          exact fun hput => by rw [hput]
      | some x =>
        simp only at h
        split at h
        · rename_i hx
          cases truncated <;>
            simp only [set_page_dirty_finish, Bool.false_eq_true, if_false, if_true,
              Res.ok.injEq, Prod.mk.injEq] at h <;>
            obtain ⟨-, rfl⟩ := h
          · simp [head_context, hr, ← hx]
          · simp only [true_and, Bool.true_eq_false, false_implies, implies_true, and_true]
            exact fun hput => by rw [hput]
        · split at h
          · simp at h
          · cases truncated <;>
              simp only [set_page_dirty_finish, Bool.false_eq_true, if_false, if_true,
                Res.ok.injEq, Prod.mk.injEq] at h <;>
              obtain ⟨-, rfl⟩ := h
            · simp [hr]
            · simp only [true_and, Bool.true_eq_false, false_implies, implies_true, and_true]
              exact fun hput => by rw [hput]
  · obtain ⟨-, rfl⟩ := h; simp


/-- What `writepage_nounlock` does: nothing on a page with no mapping; on a
page of the mapping writeback is clear on return, a write that succeeds changes
neither the dirty flag nor the attachment, and a write that fails leaves the
page dirty, with the attachment `ceph_set_page_dirty` gives it. -/
theorem writepage_nounlock_step (put : CapRefsPut) (truncated : Bool) (rc e : Int)
    (s s1 : PageSt) (wbc w1 : Option Wbc)
    (h : writepage_nounlock put truncated rc s wbc = .ok (e, s1, w1)) :
    (s.page.mapped = false → s1 = s) ∧
    (s.page.mapped = true →
      s1.page.writeback = false ∧
      ((∀ ci n c, (put ci n c).i_snap_realm = ci.i_snap_realm) →
        s1.ci.i_snap_realm = s.ci.i_snap_realm) ∧
      (0 ≤ rc → s1.page.dirty = s.page.dirty ∧ s1.page.private_ = s.page.private_) ∧
      (rc < 0 → s1.page.dirty = true ∧
        (s.page.dirty = true ∨ truncated = true → s1.page.private_ = s.page.private_) ∧
        (s.page.dirty = false → truncated = false →
          s1.page.private_ = head_context s.ci ∨
            (∃ x, s.page.private_ = some x ∧ s1.page.private_ = some x)))) := by
  unfold writepage_nounlock at h
  by_cases hm : s.page.mapped = true
  · simp only [hm, Bool.not_true, Bool.false_eq_true, if_false] at h
    refine ⟨fun h0 => by simp [hm] at h0, fun _ => ?_⟩
    by_cases hrc : 0 ≤ rc
    · simp only [hrc, if_true, Res.ok.injEq, Prod.mk.injEq] at h
      obtain ⟨-, rfl, -⟩ := h
      refine ⟨by simp [end_page_writeback], fun hput => ?_, fun _ => ?_,
        fun h0 => absurd hrc (by omega)⟩
      · by_cases hd : s.page.dirty = true <;> simp [hd, hput]
      · by_cases hd : s.page.dirty = true <;> simp [hd, end_page_writeback, set_page_writeback]
    · simp only [hrc, if_false] at h
      split at h
      · rename_i r s2 hc
        simp only [Res.ok.injEq, Prod.mk.injEq] at h
        obtain ⟨-, rfl, -⟩ := h
        obtain ⟨h1, h2, h3, h4, h5⟩ := set_page_dirty_step put truncated _ s2 _ r hc
        simp only [set_page_writeback] at h3 h4 h5
        refine ⟨by simp [end_page_writeback], h3, fun h0 => absurd h0 hrc,
          fun _ => ⟨by simpa [end_page_writeback] using h1, fun hd => ?_, fun hd ht => ?_⟩⟩
        · simpa [end_page_writeback] using h4 (Or.inr hd)
        · simpa [end_page_writeback] using h5 hm hd ht
      · simp at h
      · simp at h
  · simp only [Bool.not_eq_true] at hm
    simp only [hm, Bool.not_false, if_true, Res.ok.injEq, Prod.mk.injEq] at h
    obtain ⟨-, rfl, -⟩ := h
    exact ⟨fun _ => rfl, fun h0 => by simp [hm] at h0⟩


/-- What one operation does to the flags and the attachment of the page:
writeback is clear afterwards if it was clear before; unless the step is a
successful write-back through the `writepage` entry of a page with a context,
an attached context still implies the dirty flag; the realm is kept when the
accounting helper keeps it; unless the step is one of `leaves_dirty_detached`,
on an inode with a head context a dirty page still has a context; and a step of
`leaves_dirty_detached` leaves the page dirty with no context. -/
theorem apply_op_step (put : CapRefsPut) (s s1 : PageSt) (op : PageOp)
    (h : apply_op put s op = .ok s1) (hw : s.page.writeback = false) :
    s1.page.writeback = false ∧
    ((s.page.private_ ≠ none → s.page.dirty = true) → leaves_clean_attached s op = false →
      s1.page.private_ ≠ none → s1.page.dirty = true) ∧
    ((∀ ci n c, (put ci n c).i_snap_realm = ci.i_snap_realm) →
      s1.ci.i_snap_realm = s.ci.i_snap_realm) ∧
    ((∃ head, head_context s.ci = some head) →
      (s.page.dirty = true → s.page.private_ ≠ none) →
      leaves_dirty_detached s op = false → s1.page.dirty = true → s1.page.private_ ≠ none) ∧
    (leaves_dirty_detached s op = true → s1.page.dirty = true ∧ s1.page.private_ = none) := by
  cases op with
  | mark_dirty c truncated =>
    simp only [apply_op] at h
    cases hc : ceph_set_page_dirty put truncated s c with
    | bug => simp [hc] at h
    | timeout => simp [hc] at h
    | ok r =>
      obtain ⟨r, s2⟩ := r
      simp only [hc, Res.ok.injEq] at h
      subst h
      obtain ⟨h1, h2, h3, h4, h5⟩ := set_page_dirty_step put truncated s s2 c r hc
      refine ⟨by rw [h2, hw], fun _ _ _ => h1, h3, ?_, ?_⟩
      · rintro ⟨head, hh⟩ hda hex -
        simp only [leaves_dirty_detached] at hex
        cases hm : s.page.mapped <;> cases hd : s.page.dirty <;> cases truncated <;>
          cases hp : s.page.private_ <;> simp_all <;>
          rcases h5 with h5 | ⟨x, -, h5⟩ <;> simp [h5]
      · intro hex
        simp only [leaves_dirty_detached] at hex
        cases hm : s.page.mapped <;> cases hd : s.page.dirty <;> cases truncated <;>
          cases hp : s.page.private_ <;> simp_all
  | writepage rc truncated =>
    simp only [apply_op] at h
    split at h
    · rename_i e s2 w2 hc
      simp only [Res.ok.injEq] at h
      subst h
      obtain ⟨f1, f2⟩ := writepage_nounlock_step put truncated rc e _ s2 none w2 hc
      simp only at f1 f2
      by_cases hm : s.page.mapped = true
      · obtain ⟨g1, g2, g3, g4⟩ := f2 hm
        refine ⟨g1, ?_, g2, ?_, ?_⟩
        · intro hpd _ hne
          by_cases hrc : 0 ≤ rc
          · obtain ⟨k1, k2⟩ := g3 hrc
            rw [k1]; exact hpd (by rwa [k2] at hne)
          · exact (g4 (by omega)).1
        · rintro ⟨head, hh⟩ hda hex hd1
          simp only [leaves_dirty_detached] at hex
          by_cases hrc : 0 ≤ rc
          · obtain ⟨k1, k2⟩ := g3 hrc
            rw [k2]; exact hda (by rwa [k1] at hd1)
          · obtain ⟨-, k2, k3⟩ := g4 (by omega)
            have hrc1 : rc < 0 := by omega
            cases hd : s.page.dirty with
            | true => rw [k2 (Or.inl hd)]; exact hda hd
            | false =>
              cases truncated with
              | false =>
                rcases k3 hd rfl with k3 | ⟨x, -, k3⟩
                · rw [k3, hh]; simp
                · rw [k3]; simp
              | true =>
                rw [k2 (Or.inr rfl)]
                have hsome : s.page.private_.isSome = true := by simpa [hrc1, hm, hd] using hex
                exact Option.isSome_iff_ne_none.mp hsome
        · intro hex
          simp only [leaves_dirty_detached] at hex
          have hrc1 : rc < 0 := by
            by_contra hcon
            simp [hcon] at hex
          obtain ⟨k1, k2, -⟩ := g4 hrc1
          cases hd : s.page.dirty <;> cases truncated <;> cases hp : s.page.private_ <;>
            simp_all
      · simp only [Bool.not_eq_true] at hm
        have := f1 hm
        subst this
        refine ⟨hw, fun hpd _ => hpd, fun _ => rfl, fun _ hda _ => hda, fun hex => ?_⟩
        simp [leaves_dirty_detached, hm] at hex
    · simp at h
    · simp at h
  | writepage_vfs wbc rc truncated =>
    simp only [apply_op, clear_page_dirty_for_io] at h
    split_ifs at h with hel
    · simp only [Bool.and_eq_true, Bool.not_eq_true'] at hel
      obtain ⟨⟨hm, -⟩, hd⟩ := hel
      simp only [ceph_writepage] at h
      split at h
      · rename_i e s2 w2 hc
        split at hc
        · rename_i e1 s3 w3 hc1
          simp only [Res.ok.injEq, Prod.mk.injEq] at hc
          obtain ⟨-, rfl, -⟩ := hc
          simp only [Res.ok.injEq] at h
          subst h
          obtain ⟨-, f2⟩ := writepage_nounlock_step put truncated rc e1 _ s3 _ w3 hc1
          obtain ⟨g1, g2, g3, g4⟩ := f2 hm
          simp only at g2 g3 g4
          refine ⟨by simpa [unlock_page] using g1, ?_, g2, ?_,
            fun hex => by simp [leaves_dirty_detached] at hex⟩
          · intro _ hex hne
            simp only [leaves_clean_attached, hm, hw, hd, Bool.not_false, Bool.and_true,
              Bool.true_and, Bool.and_eq_false_imp, Option.isSome_iff_ne_none,
              decide_eq_false_iff_not, not_le, ne_eq] at hex
            simp only [unlock_page] at hne ⊢
            by_cases hrc : 0 ≤ rc
            · obtain ⟨-, k2⟩ := g3 hrc
              rw [k2] at hne
              have := hex (by simpa using hne)
              omega
            · exact (g4 (by omega)).1
          · rintro ⟨head, hh⟩ hda - hd1
            simp only [unlock_page] at hd1 ⊢
            by_cases hrc : 0 ≤ rc
            · obtain ⟨k1, -⟩ := g3 hrc
              rw [k1] at hd1
              exact absurd hd1 (by simp)
            · obtain ⟨-, k2, k3⟩ := g4 (by omega)
              have hsp := hda hd
              cases truncated
              · rcases k3 trivial rfl with k3 | ⟨x, -, k3⟩
                · simp only [head_context] at k3 hh
                  rw [k3]
                  simp only [head_context, hh]
                  simp
                · rw [k3]; simp
              · rw [k2 (Or.inr rfl)]; exact hsp
        · simp at hc
        · simp at hc
      · simp at h
      · simp at h
    · simp only [Res.ok.injEq] at h
      subst h
      refine ⟨hw, fun hpd _ => hpd, fun _ => rfl, fun _ hda _ => hda,
        fun hex => by simp [leaves_dirty_detached] at hex⟩
  | batch cfg nobatch next k snapc covered =>
    simp only [apply_op] at h
    cases he : examine_page cfg s.ci.i_size snapc nobatch next k s.page with
    | mk v p =>
      obtain ⟨e1, e2, e3, e4⟩ := examine_page_flags _ _ _ _ _ _ _ _ _ he
      rw [he] at h
      have other : v ≠ .take → s1 = { s with page := p } := by
        intro hv
        cases v <;> simp only [Res.ok.injEq] at h <;> first | exact h.symm | exact absurd rfl hv
      by_cases hv : v = .take
      · subst hv
        obtain ⟨t1, t2, t3, -, -, -, -, t8, t9, t10⟩ := e3 rfl
        simp only at h
        cases hc : clean_or_redirty covered p with
        | bug => simp [hc] at h
        | timeout => simp [hc] at h
        | ok p1 =>
          simp only [hc, Res.ok.injEq] at h
          subst h
          obtain ⟨c1, c2, c3, c4, c5⟩ := clean_or_redirty_flags _ _ _ hc
          refine ⟨c1, fun _ _ hne => ?_, fun hput => ?_, fun _ _ _ hd => ?_,
            fun hex => by simp [leaves_dirty_detached] at hex⟩
          · cases covered
            · exact (c5 rfl).2.2
            · exact absurd (c4 rfl).1 hne
          · simp only; split <;> simp [hput]
          · cases covered
            · simp only; rw [(c5 rfl).2.1, e1, t3]; simp
            · simp only at hd; rw [(c4 rfl).2, t8] at hd; exact absurd hd (by simp)
      · have := other hv
        subst this
        obtain ⟨f1, f2, -, -⟩ := e4 hv
        refine ⟨?_, fun hpd _ hne => ?_, fun _ => rfl, fun _ hp _ hd => ?_,
          fun hex => by simp [leaves_dirty_detached] at hex⟩
        · cases hpw : p.writeback
          · rfl
          · rw [f2 hpw] at hw; exact absurd hw (by simp)
        · simp only at hne ⊢; rw [f1]; exact hpd (by rwa [e1] at hne)
        · simp only at hd ⊢; rw [e1]; exact hp (by rwa [f1] at hd)
  | invalidate offset =>
    simp only [apply_op, ceph_invalidatepage, Bool.not_true, Bool.false_eq_true, if_false] at h
    simp only [leaves_dirty_detached, leaves_clean_attached]
    cases offset with
    | zero =>
      simp only [if_true] at h
      refine ⟨?_, ?_, ?_, ?_, ?_⟩ <;>
        split_ifs at h <;> simp only [Res.ok.injEq] at h <;> subst h <;> simp_all
    | succ n =>
      simp only [Nat.succ_ne_zero, if_false] at h
      refine ⟨?_, ?_, ?_, ?_, ?_⟩ <;>
        split_ifs at h <;> simp only [Res.ok.injEq] at h <;> subst h <;> simp_all


/-- Along a sequence of operations without fatal fault, the properties of
`apply_op_step` hold from the first state to the last. -/
theorem run_ops_steps (put : CapRefsPut) (ops : List PageOp) (s s1 : PageSt)
    (h : run_ops put s ops = .ok s1) (hw : s.page.writeback = false) :
    s1.page.writeback = false ∧
    ((s.page.private_ ≠ none → s.page.dirty = true) →
      run_avoids put leaves_clean_attached s ops = true →
      s1.page.private_ ≠ none → s1.page.dirty = true) ∧
    ((∃ head, head_context s.ci = some head) →
      (∀ ci n c, (put ci n c).i_snap_realm = ci.i_snap_realm) →
      (s.page.dirty = true → s.page.private_ ≠ none) →
      run_avoids put leaves_dirty_detached s ops = true →
      s1.page.dirty = true → s1.page.private_ ≠ none) := by
  induction ops generalizing s with
  | nil =>
    simp only [run_ops, Res.ok.injEq] at h
    subst h
    exact ⟨hw, fun hpd _ => hpd, fun _ _ hda _ => hda⟩
  | cons op ops ih =>
    simp only [run_ops] at h
    cases ha : apply_op put s op with
    | bug => simp [ha] at h
    | timeout => simp [ha] at h
    | ok s2 =>
      simp only [ha] at h
      obtain ⟨a1, a2, a3, a4, -⟩ := apply_op_step put s s2 op ha hw
      obtain ⟨i1, i2, i3⟩ := ih s2 h a1
      refine ⟨i1, fun hpd hav => ?_, fun hh hput hda hav => ?_⟩
      · simp only [run_avoids, ha, Bool.and_eq_true, Bool.not_eq_true'] at hav
        exact i2 (a2 hpd hav.1) hav.2
      · simp only [run_avoids, ha, Bool.and_eq_true, Bool.not_eq_true'] at hav
        have hh2 : ∃ head, head_context s2.ci = some head := by
          simpa [head_context, a3 hput] using hh
        exact i3 hh2 hput (a4 hh hda hav.1) hav.2

/-- C1, as the code has it: start from a page that is clean, not under
writeback and has no attached context, and run any sequence of
`ceph_set_page_dirty`, `writepage_nounlock` called directly, write-back through
the `writepage` entry (each succeeding or failing, with or without truncation
race), batch clean/redirty and `ceph_invalidatepage` that meets no fatal fault.
Then the page is not under writeback.  If no step was a successful write-back
through the `writepage` entry of a page with a context, an attached context
implies the dirty flag.  If the inode has a head context, the accounting helper
leaves the realm alone and no step was one of `leaves_dirty_detached`, a dirty
page has an attached context.  With both provisos the page has an attached
context if and only if it is dirty or under writeback.  And every step of
`leaves_dirty_detached` leaves the page dirty with no context. -/
theorem page_attachment (put : CapRefsPut) (s0 s : PageSt) (ops : List PageOp)
    (hd : s0.page.dirty = false) (hw : s0.page.writeback = false)
    (hp : s0.page.private_ = none) (hrun : run_ops put s0 ops = .ok s) :
    s.page.writeback = false ∧
    (run_avoids put leaves_clean_attached s0 ops = true →
      s.page.private_ ≠ none → s.page.dirty = true) ∧
    ((∃ head, head_context s0.ci = some head) →
      (∀ ci n c, (put ci n c).i_snap_realm = ci.i_snap_realm) →
      run_avoids put leaves_dirty_detached s0 ops = true →
      s.page.dirty = true → s.page.private_ ≠ none) ∧
    ((∃ head, head_context s0.ci = some head) →
      (∀ ci n c, (put ci n c).i_snap_realm = ci.i_snap_realm) →
      run_avoids put leaves_clean_attached s0 ops = true →
      run_avoids put leaves_dirty_detached s0 ops = true →
      (s.page.private_ ≠ none ↔ s.page.dirty = true ∨ s.page.writeback = true)) ∧
    (∀ (t t1 : PageSt) (op : PageOp), t.page.writeback = false →
      apply_op put t op = .ok t1 → leaves_dirty_detached t op = true →
      t1.page.dirty = true ∧ t1.page.private_ = none) := by
  obtain ⟨r1, r2, r3⟩ := run_ops_steps put ops s0 s hrun hw
  have q2 := r2 (fun h => absurd hp h)
  have q3 := fun hh hput => r3 hh hput (fun h0 => by rw [hd] at h0; exact absurd h0 (by simp))
  refine ⟨r1, q2, q3, fun hh hput h1 h2 => ⟨fun h => Or.inl (q2 h1 h), fun h => ?_⟩,
    fun t t1 op ht ha hex => (apply_op_step put t t1 op ha ht).2.2.2.2 hex⟩
  rcases h with h | h
  · exact q3 hh hput h2 h
  · rw [r1] at h; exact absurd h (by simp)

/-- Witness of C1: the run of `example_ops` from `example_start`, which has a
failing write-back through the `writepage` entry, a partial invalidate of the
dirty page, a racing `ceph_set_page_dirty` of the dirty page, a batch that
cleans the page, a full invalidate of the clean page and two direct calls of
`writepage_nounlock`.  No step is one of the excepted ones, and the page ends
dirty under the head context 1, not under writeback. -/
theorem page_attachment_witness :
    example_start.page.dirty = false ∧ example_start.page.writeback = false ∧
    example_start.page.private_ = none ∧
    run_ops ceph_put_wrbuffer_cap_refs example_start example_ops = .ok example_end ∧
    (example_end.page.writeback = false ∧
     (run_avoids ceph_put_wrbuffer_cap_refs leaves_clean_attached example_start example_ops
          = true →
       example_end.page.private_ ≠ none → example_end.page.dirty = true) ∧
     ((∃ head, head_context example_start.ci = some head) →
       (∀ ci n c, (ceph_put_wrbuffer_cap_refs ci n c).i_snap_realm = ci.i_snap_realm) →
       run_avoids ceph_put_wrbuffer_cap_refs leaves_dirty_detached example_start example_ops
          = true →
       example_end.page.dirty = true → example_end.page.private_ ≠ none) ∧
     ((∃ head, head_context example_start.ci = some head) →
       (∀ ci n c, (ceph_put_wrbuffer_cap_refs ci n c).i_snap_realm = ci.i_snap_realm) →
       run_avoids ceph_put_wrbuffer_cap_refs leaves_clean_attached example_start example_ops
          = true →
       run_avoids ceph_put_wrbuffer_cap_refs leaves_dirty_detached example_start example_ops
          = true →
       (example_end.page.private_ ≠ none ↔
         example_end.page.dirty = true ∨ example_end.page.writeback = true)) ∧
     (∀ (t t1 : PageSt) (op : PageOp), t.page.writeback = false →
       apply_op ceph_put_wrbuffer_cap_refs t op = .ok t1 →
       leaves_dirty_detached t op = true →
       t1.page.dirty = true ∧ t1.page.private_ = none)) ∧
    ((∃ head, head_context example_start.ci = some head) ∧
     run_avoids ceph_put_wrbuffer_cap_refs leaves_clean_attached example_start example_ops
        = true ∧
     run_avoids ceph_put_wrbuffer_cap_refs leaves_dirty_detached example_start example_ops
        = true ∧
     example_end.page.dirty = true ∧ example_end.page.private_ = some 1 ∧
     example_end.page.writeback = false) :=
  ⟨rfl, rfl, rfl, by rfl,
    page_attachment ceph_put_wrbuffer_cap_refs example_start example_end example_ops
      rfl rfl rfl (by rfl),
    ⟨⟨1, rfl⟩, by decide, by decide, by decide, by rfl, by decide⟩⟩

/-- C1 fails as stated, each run starting from a clean page with no context
that is not under writeback.  A page dirtied under the head and then
invalidated in full is dirty with no context: `ceph_invalidatepage` detaches
the context and leaves the dirty flag to the host.  A `ceph_set_page_dirty`
that races with a truncate, and one of a page with no mapping, set the dirty
flag and attach nothing.  And a page dirtied under the head and written back
with success through the `writepage` entry is clean with its context still
attached, because `writepage_nounlock` never detaches it. -/
theorem page_attachment_counterexample :
    (example_start.page.dirty = false ∧ example_start.page.writeback = false ∧
      example_start.page.private_ = none) ∧
    (example_unmapped.page.dirty = false ∧ example_unmapped.page.writeback = false ∧
      example_unmapped.page.private_ = none) ∧
    (∃ s, run_ops ceph_put_wrbuffer_cap_refs example_start
        [.mark_dirty none false, .invalidate 0] = .ok s ∧
      s.page.dirty = true ∧ s.page.private_ = none ∧
      ¬ (s.page.private_ ≠ none ↔ s.page.dirty = true ∨ s.page.writeback = true)) ∧
    (∃ s, run_ops ceph_put_wrbuffer_cap_refs example_start [.mark_dirty none true] = .ok s ∧
      s.page.dirty = true ∧ s.page.private_ = none ∧
      ¬ (s.page.private_ ≠ none ↔ s.page.dirty = true ∨ s.page.writeback = true)) ∧
    (∃ s, run_ops ceph_put_wrbuffer_cap_refs example_unmapped [.mark_dirty none false]
        = .ok s ∧
      s.page.dirty = true ∧ s.page.private_ = none ∧
      ¬ (s.page.private_ ≠ none ↔ s.page.dirty = true ∨ s.page.writeback = true)) ∧
    (∃ s, run_ops ceph_put_wrbuffer_cap_refs example_start
        [.mark_dirty none false, .writepage_vfs example_wbc 4096 false] = .ok s ∧
      s.page.dirty = false ∧ s.page.private_ = some 1 ∧
      ¬ (s.page.private_ ≠ none ↔ s.page.dirty = true ∨ s.page.writeback = true)) :=
  ⟨⟨rfl, rfl, rfl⟩, ⟨rfl, rfl, rfl⟩,
   ⟨_, rfl, by decide, by decide, by decide⟩, ⟨_, rfl, by decide, by decide, by decide⟩,
   ⟨_, rfl, by decide, by decide, by decide⟩, ⟨_, rfl, by decide, by rfl, by decide⟩⟩

/-! ## Snapshot fencing and page population in `ceph_write_begin` -/

/-- A fenced flush that succeeds leaves the page dirty under its old context:
`writepage_nounlock` with a result `rc ≥ 0` changes neither the dirty flag nor
`private_`, whatever the accounting helper does. -/
theorem writepage_nounlock_success_keeps (put : CapRefsPut) (truncated : Bool) (rc : Int)
    (s : PageSt) (wbc : Option Wbc) (hm : s.page.mapped = true) (hrc : 0 ≤ rc) :
    ∃ s1, writepage_nounlock put truncated rc s wbc = .ok (0, s1, wbc) ∧
      s1.page.dirty = s.page.dirty ∧ s1.page.private_ = s.page.private_ ∧
      s1.page.writeback = false := by
  unfold writepage_nounlock
  simp only [hm, Bool.not_true, Bool.false_eq_true, if_false, hrc, if_true]
  refine ⟨_, rfl, ?_, ?_, ?_⟩ <;>
    by_cases hd : s.page.dirty = true <;> simp [hd, end_page_writeback, set_page_writeback]

/-- C2, the code at the failing input: a page is dirty under context 1 (one
reference on the record of epoch 1), the head context is 2, and a write of 100
bytes at offset 0 runs `ceph_write_begin`, whose fenced flush succeeds, then
`ceph_write_end`.  The page ends dirty with context 1 still attached, and
neither the head count nor the total count accounts for it. -/
theorem write_fence_keeps_old_context :
    ∃ s1 s2,
      ceph_write_begin ceph_put_wrbuffer_cap_refs
          { nomem := false, wr_rc := 4096, rd_rc := 0, rd_data := fun _ => 0,
            truncated := false }
          (mk_state (dirty_page 1) (mk_inode 1 0 [{ context := 1, dirty := 1 }] 2)) 0 100
        = .ok (0, s1) ∧
      ceph_write_end ceph_put_wrbuffer_cap_refs false s1 0 100 100 = .ok (100, s2) ∧
      s2.page.dirty = true ∧ s2.page.private_ = some 1 ∧
      s2.ci.i_wrbuffer_ref_head = 0 ∧ s2.ci.i_wrbuffer_ref = 0 ∧ s2.ci.i_cap_snaps = [] :=
  ⟨_, _, rfl, rfl, rfl, rfl, rfl, rfl, rfl⟩

/-- C10, the code at the failing input: a page that is not up to date, a file
of 8192 bytes, a write window of 100 bytes at position 100 of page 0, and a
read that delivers 1000 bytes, all of value 7.  Position 500 lies outside the
window and inside the bytes read, yet it holds zero on return. -/
theorem write_begin_zeroes_read_bytes :
    ∃ s1,
      ceph_write_begin ceph_put_wrbuffer_cap_refs
          { nomem := false, wr_rc := 0, rd_rc := 1000, rd_data := fun _ => 7,
            truncated := false }
          (mk_state { clean_page with uptodate := false } (mk_inode 0 0 [] 1)) 100 100
        = .ok (0, s1) ∧
      ¬ (100 ≤ 500 ∧ 500 < 100 + 100) ∧ ((500 : Nat) : Int) < 1000 ∧
      s1.data 500 = 0 ∧
      s1.data = write_begin_read (fun _ => 0) 1000 (fun _ => 7) 100 100 := by
  refine ⟨_, rfl, by decide, by decide, ?_, rfl⟩
  decide

/-- Lines 725-748 zero every byte after the window whenever the read is short
of a full page, also the bytes the read delivered. -/
theorem write_begin_read_after_window (data rd : Nat → Nat) (r : Int) (pos_in_page len p : Nat)
    (hr : r < (PAGE_SIZE : Int)) (hp : pos_in_page + len ≤ p) (hps : p < PAGE_SIZE) :
    write_begin_read data r rd pos_in_page len p = 0 := by
  unfold write_begin_read
  have h1 : pos_in_page + len < PAGE_SIZE := by omega
  simp only [h1, hr, and_self, if_true, memset_zero]
  have h2 : pos_in_page + len ≤ p ∧ p < pos_in_page + len + (PAGE_SIZE - (pos_in_page + len)) :=
    ⟨hp, by omega⟩
  simp [h2]

/-! ## `ceph_writepages` -/

/-- What `pagevec_lookup_tag` returns: pages at indices from `index` up to the
bound, tagged dirty, and a cursor that moved forward if any page was found. -/
theorem lookup_spec (pc : Nat → Page) (bound index want : Nat) :
    (∀ k ∈ (pagevec_lookup_tag pc bound index want).1, index ≤ k ∧ k < bound ∧ (pc k).tag_dirty = true) ∧
    ((pagevec_lookup_tag pc bound index want).1 = [] →
      (pagevec_lookup_tag pc bound index want).2 = index) ∧
    ((pagevec_lookup_tag pc bound index want).1 ≠ [] →
      index < (pagevec_lookup_tag pc bound index want).2 ∧
      (pagevec_lookup_tag pc bound index want).2 ≤ bound) := by
  have hmem : ∀ k ∈ (pagevec_lookup_tag pc bound index want).1,
      index ≤ k ∧ k < bound ∧ (pc k).tag_dirty = true := by
    intro k hk
    simp only [pagevec_lookup_tag] at hk
    have h1 := List.mem_of_mem_take hk
    simp only [List.mem_filter, List.mem_range'_1] at h1
    obtain ⟨⟨h2, h3⟩, h4⟩ := h1
    exact ⟨h2, by omega, h4⟩
  refine ⟨hmem, ?_, ?_⟩
  · intro h
    simp only [pagevec_lookup_tag] at h ⊢
    simp [h]
  · intro h
    obtain ⟨k, hk⟩ : ∃ k, (pagevec_lookup_tag pc bound index want).1.getLast? = some k := by
      cases hl : (pagevec_lookup_tag pc bound index want).1.getLast? with
      | none => exact absurd (List.getLast?_eq_none_iff.mp hl) h
      | some k => exact ⟨k, rfl⟩
    have hk2 := hmem k (List.mem_of_getLast?_eq_some hk)
    have : (pagevec_lookup_tag pc bound index want).2 = k + 1 := by
      simp only [pagevec_lookup_tag] at hk ⊢
      simp [hk]
    omega

/-- A page that is not taken leaves the pages of the batch as they are. -/
theorem batch_frame (cfg : ScanCfg) (snapc : Ctx) (lo bound : Nat) (b : Batch)
    (hb : BatchOk cfg snapc lo bound b) (k : Nat) (p : Page) (v : Verdict) (i_size : Int)
    (he : examine_page cfg i_size snapc (decide (b.pages = [])) b.next k (b.pc k) = (v, p))
    (hv : v ≠ .take) (d : Bool) :
    BatchOk cfg snapc lo bound { b with pc := set_pc b.pc k p, done := d } := by
  obtain ⟨h1, h2, h3⟩ := hb
  obtain ⟨-, -, -, e4⟩ := examine_page_flags _ _ _ _ _ _ _ _ _ he
  obtain ⟨-, -, f3, -⟩ := e4 hv
  refine ⟨h1, h2, fun k1 hk1 => ?_⟩
  have hne : b.pages ≠ [] := List.ne_nil_of_mem hk1
  have hsame : set_pc b.pc k p k1 = b.pc k1 := by
    unfold set_pc
    split
    · rename_i heq
      subst heq
      exact f3 (by simp [hne]) (h3 k1 hk1).1
    · rfl
  simp only [hsame]
  exact h3 k1 hk1

/-- A page that is taken extends the batch. -/
theorem batch_take (cfg : ScanCfg) (snapc : Ctx) (lo bound : Nat) (b : Batch)
    (hb : BatchOk cfg snapc lo bound b) (k : Nat) (p : Page) (i_size : Int)
    (he : examine_page cfg i_size snapc (decide (b.pages = [])) b.next k (b.pc k) = (.take, p))
    (hlen : b.pages.length < cfg.max_pages) (hk : lo ≤ k ∧ k < bound) (f : Int) :
    BatchOk cfg snapc lo bound
      { pc := set_pc b.pc k p, pages := b.pages ++ [k], next := k + 1, done := b.done,
        first := f } := by
  obtain ⟨h1, ⟨a, h2, h2c⟩, h3⟩ := hb
  obtain ⟨e1, e2, e3, -⟩ := examine_page_flags _ _ _ _ _ _ _ _ _ he
  obtain ⟨t1, t2, t3, t4, t5, t6, t7, t8, t9, t10⟩ := e3 rfl
  have hnot : k ∉ b.pages := by
    intro hk1
    have := (h3 k hk1).2.1
    rw [this] at t1
    exact absurd t1 (by simp)
  refine ⟨by simp; omega, ?_, ?_⟩
  · by_cases hn : b.pages = []
    · refine ⟨k, ?_, fun _ => ?_⟩
      · simp [hn]
      · simp [hn]
        omega
    · obtain ⟨hlo, hbd, hnext⟩ := h2c hn
      have hlen0 : b.pages.length ≠ 0 := by
        intro h0; exact hn (List.length_eq_zero.mp h0)
      have hk2 : k = a + b.pages.length := by
        rw [← hnext]; exact t5 (by omega)
      refine ⟨a, ?_, fun _ => ?_⟩
      · simp only [List.length_append, List.length_singleton]
        rw [List.range'_concat, ← h2, hk2]
        simp
      · simp only [List.length_append, List.length_singleton]; omega
  · intro k1 hk1
    simp only [List.mem_append, List.mem_singleton] at hk1
    rcases hk1 with hk1 | hk1
    · have hne : k1 ≠ k := fun h => hnot (h ▸ hk1)
      simp only [set_pc, hne, if_false]
      exact h3 k1 hk1
    · subst hk1
      simp only [set_pc, if_true]
      exact ⟨t10, t8, t9, by rw [e1, t3], by rw [e2, t2], t6⟩

/-- The `for` loop of lines 480-559 keeps the batch well formed, only adds
pages to it, and leaves `first` set once a page was taken after the first
iteration. -/
theorem scan_pages_spec (cfg : ScanCfg) (i_size : Int) (snapc : Ctx) (lo bound : Nat)
    (pvec : List Nat) :
    ∀ (i : Nat) (b : Batch), BatchOk cfg snapc lo bound b →
      (∀ k ∈ pvec, lo ≤ k ∧ k < bound) →
      (b.pages ≠ [] → i ≠ 0 → 0 ≤ b.first) →
      BatchOk cfg snapc lo bound (scan_pages cfg i_size snapc i pvec b).1 ∧
      ((scan_pages cfg i_size snapc i pvec b).1.pages ≠ [] →
        (scan_pages cfg i_size snapc i pvec b).2 ≠ 0 →
        0 ≤ (scan_pages cfg i_size snapc i pvec b).1.first) ∧
      (b.pages ≠ [] → (scan_pages cfg i_size snapc i pvec b).1.pages ≠ []) := by
  induction pvec with
  | nil =>
    intro i b hb _ hf
    simp only [scan_pages]
    exact ⟨hb, hf, fun h => h⟩
  | cons k rest ih =>
    intro i b hb hk hf
    have hk0 := hk k (List.mem_cons_self _ _)
    have hrest : ∀ k1 ∈ rest, lo ≤ k1 ∧ k1 < bound :=
      fun k1 h1 => hk k1 (List.mem_cons_of_mem _ h1)
    simp only [scan_pages]
    split
    · exact ⟨hb, hf, fun h => h⟩
    · rename_i hlen
      simp only [not_not] at hlen
      cases he : examine_page cfg i_size snapc (decide (b.pages = [])) b.next k (b.pc k) with
      | mk v p =>
        cases v with
        | stop =>
          simp only
          exact ⟨batch_frame cfg snapc lo bound b hb k p _ i_size he (by simp) b.done, hf,
            fun h => h⟩
        | stop_done =>
          simp only
          exact ⟨batch_frame cfg snapc lo bound b hb k p _ i_size he (by simp) true, hf,
            fun h => h⟩
        | skip =>
          simp only
          have hnb : b.pages = [] := by
            have := ((examine_page_flags _ _ _ _ _ _ _ _ _ he).2.2.2 (by simp)).2.2.2 rfl
            simpa using this
          have h1 := ih (i + 1) { b with pc := set_pc b.pc k p }
            (batch_frame cfg snapc lo bound b hb k p _ i_size he (by simp) b.done) hrest
            (fun h => absurd hnb h)
          exact ⟨h1.1, h1.2.1, fun h => absurd hnb h⟩
        | take =>
          simp only
          have h1 := ih (i + 1)
            { pc := set_pc b.pc k p, pages := b.pages ++ [k], next := k + 1, done := b.done,
              first := if b.first < 0 then (i : Int) else b.first }
            (batch_take cfg snapc lo bound b hb k p i_size he hlen hk0 _) hrest
            (fun _ _ => by simp only; split <;> omega)
          exact ⟨h1.1, h1.2.1, fun _ => h1.2.2 (by simp)⟩

/-- Lines 469-584 end without fatal fault once the fuel exceeds the distance
of the cursor to the bound.  If no page is in the batch the cursor has moved
forward; in all cases the batch is well formed. -/
theorem get_more_pages_spec (cfg : ScanCfg) (bound : Nat) (i_size : Int) (snapc : Ctx)
    (lo : Nat) :
    ∀ (fuel index : Nat) (b : Batch), bound - index < fuel → lo ≤ index →
      BatchOk cfg snapc lo bound b →
      (b.pages = [] → index = lo) →
      (get_more_pages cfg bound i_size snapc fuel index b = .ok (.nothing lo) ∧ b.pages = []) ∨
      (∃ b1 index1, get_more_pages cfg bound i_size snapc fuel index b = .ok (.batch b1 index1) ∧
        BatchOk cfg snapc lo bound b1 ∧
        (b1.pages = [] → lo < index1 ∧ index1 ≤ bound)) := by
  intro fuel
  induction fuel with
  | zero => intro index b h; omega
  | succ fuel ih =>
    intro index b hfuel hlo hb hidx
    obtain ⟨l1, l2, l3⟩ := lookup_spec b.pc bound index
      (want_pages cfg.end_ index cfg.max_pages b.pages.length)
    simp only [get_more_pages]
    split
    · rename_i hnone
      left
      rw [l2 hnone.1, hidx hnone.2]
      exact ⟨rfl, hnone.2⟩
    · rename_i hsome
      right
      have hb0 : BatchOk cfg snapc lo bound { b with first := -1 } := hb
      have hpv : ∀ k ∈ (pagevec_lookup_tag b.pc bound index
          (want_pages cfg.end_ index cfg.max_pages b.pages.length)).1, lo ≤ k ∧ k < bound :=
        fun k hk => ⟨by have := l1 k hk; omega, (l1 k hk).2.1⟩
      obtain ⟨s1, s2, s3⟩ := scan_pages_spec cfg i_size snapc lo bound _ 0
        { b with first := -1 } hb0 hpv (fun _ h => absurd rfl h)
      split
      · rename_i hemp
        refine ⟨_, _, rfl, s1, fun _ => ?_⟩
        have hbe : b.pages = [] := by
          by_contra hne
          exact s3 hne hemp
        have hpne : (pagevec_lookup_tag b.pc bound index
          (want_pages cfg.end_ index cfg.max_pages b.pages.length)).1 ≠ [] :=
          fun h => hsome ⟨h, hbe⟩
        have := l3 hpne
        have := hidx hbe
        omega
      · rename_i hne
        split
        · rename_i hi
          split
          · rename_i hfirst
            exact absurd (s2 hne hi) (by omega)
          · split
            · rename_i hmore
              have hstep := l3 hmore.1
              rcases ih (pagevec_lookup_tag b.pc bound index
                  (want_pages cfg.end_ index cfg.max_pages b.pages.length)).2 _
                (by omega) (by omega) s1 (fun h => absurd h hne) with h | h
              · exact absurd h.2 hne
              · exact h
            · exact ⟨_, _, rfl, s1, fun h => absurd h hne⟩
        · exact ⟨_, _, rfl, s1, fun h => absurd h hne⟩

/-- The loop of lines 608-624 on a batch of distinct locked pages ends without
fatal fault; it touches only the pages of the batch, handles the page at
position `j` as `clean_or_redirty` says for `i + j < wrote`, and counts one
skipped page for every page not covered. -/
theorem reconcile_pages_spec (snapc : Ctx) (wrote : Nat) (pages : List Nat) :
    ∀ (i : Nat) (r : Reconciled), pages.Nodup → (∀ k ∈ pages, (r.pc k).locked = true) →
      ∃ r1, reconcile_pages snapc wrote i pages r = .ok r1 ∧
        (∀ k, k ∉ pages → r1.pc k = r.pc k) ∧
        (∀ j (hj : j < pages.length),
          clean_or_redirty (decide (i + j < wrote)) (r.pc pages[j]) = .ok (r1.pc pages[j])) ∧
        r1.pages_skipped = r.pages_skipped +
          ((i + pages.length - max i (min wrote (i + pages.length)) : Nat) : Int) := by
  induction pages with
  | nil =>
    intro i r _ _
    refine ⟨r, rfl, fun _ _ => rfl, fun j hj => absurd hj (by simp), ?_⟩
    simp
  | cons k rest ih =>
    intro i r hnd hl
    obtain ⟨hk, hnd1⟩ := List.nodup_cons.mp hnd
    have hlk := hl k (List.mem_cons_self _ _)
    obtain ⟨p, hp⟩ : ∃ p, clean_or_redirty (decide (i < wrote)) (r.pc k) = .ok p := by
      unfold clean_or_redirty ceph_redirty_page
      simp only [hlk, Bool.not_true, Bool.false_eq_true, if_false]
      split
      · exact ⟨_, rfl⟩
      · split_ifs <;> exact ⟨_, rfl⟩
    have hl1 : ∀ k1 ∈ rest, (set_pc r.pc k p k1).locked = true := by
      intro k1 hk1
      have hne : k1 ≠ k := fun h => hk (h ▸ hk1)
      simp only [set_pc, hne, if_false]
      exact hl k1 (List.mem_cons_of_mem _ hk1)
    obtain ⟨r1, h1, h2, h3, h4⟩ := ih (i + 1)
      { pc := set_pc r.pc k p,
        nref := if i < wrote then ceph_put_snap_context (some snapc) r.nref else r.nref,
        pages_skipped := if i < wrote then r.pages_skipped else r.pages_skipped + 1 } hnd1 hl1
    refine ⟨r1, ?_, ?_, ?_, ?_⟩
    · simp only [reconcile_pages, hp]
      exact h1
    · intro k1 hk1
      simp only [List.mem_cons, not_or] at hk1
      rw [h2 k1 hk1.2]
      simp [set_pc, hk1.1]
    · intro j hj
      cases j with
      | zero =>
        simp only [List.getElem_cons_zero, Nat.add_zero]
        rw [h2 k hk]
        simpa [set_pc] using hp
      | succ j =>
        simp only [List.getElem_cons_succ]
        have hj1 : j < rest.length := by simpa using hj
        have := h3 j hj1
        have hne : rest[j] ≠ k := fun h => hk (h ▸ List.getElem_mem _)
        simp only [set_pc, hne, if_false] at this
        rw [show i + 1 + j = i + (j + 1) by omega] at this
        exact this
    · rw [h4]
      simp only [List.length_cons]
      split_ifs with hw
      · congr 1
        have : i + 1 + rest.length - max (i + 1) (min wrote (i + 1 + rest.length)) =
          i + (rest.length + 1) - max i (min wrote (i + (rest.length + 1))) := by omega
        rw [this]
      · have : i + (rest.length + 1) - max i (min wrote (i + (rest.length + 1))) =
          i + 1 + rest.length - max (i + 1) (min wrote (i + 1 + rest.length)) + 1 := by omega
        rw [this]
        push_cast
        omega

/-- What `wrote_pages` counts for a request that starts at a page boundary:
the pages of which at least one byte lies within the first `rc` bytes. -/
theorem wrote_pages_iff (rc : Int) (k0 : Nat) :
    (0 ≤ rc → ∀ j : Nat,
      j < wrote_pages rc ((k0 * PAGE_CACHE_SIZE : Nat) : Int) ↔
        ((j * PAGE_CACHE_SIZE : Nat) : Int) < rc) ∧
    (rc < 0 → wrote_pages rc ((k0 * PAGE_CACHE_SIZE : Nat) : Int) = 0) ∧
    (∀ n : Nat, rc ≤ ((n * PAGE_CACHE_SIZE : Nat) : Int) →
      wrote_pages rc ((k0 * PAGE_CACHE_SIZE : Nat) : Int) ≤ n) := by
  unfold wrote_pages PAGE_CACHE_SIZE
  refine ⟨fun h j => ?_, fun h => ?_, fun n h => ?_⟩
  · simp only [h, if_true]
    push_cast
    omega
  · have : ¬ 0 ≤ rc := by omega
    simp [this]
  · split
    · push_cast at h ⊢
      omega
    · omega

/-- C4, as the code has it: the bulk write of a well-formed batch of `N ≥ 1`
pages, with result `rc`, ends without fatal fault.  With `K` the value of
`wrote` (for `rc ≥ 0` the least number of pages that hold `rc` bytes, for
`rc < 0` zero), the page at position `j` of the batch is cleaned (context
detached, not dirty) if and only if `j < K`, which for `rc ≥ 0` means
`j * PAGE_CACHE_SIZE < rc`; every other page is redirtied with its context
still attached; writeback is cleared and the page unlocked on all `N`; the
accounting helper is called once, for `K` references against the selected
context; the skipped counter grows by `N - K`; and `K ≤ N` when `rc` is at
most the length of the request. -/
theorem write_batch_reconciles (put : CapRefsPut) (env : WpEnv) (cfg : ScanCfg) (snapc : Ctx)
    (lo : Nat) (w : Wp) (b : Batch) (k0 : Nat)
    (hb : BatchOk cfg snapc lo w.bound b) (_hk0 : b.pages.head? = some k0) :
    ∃ w1, write_batch put env cfg snapc w b k0 = .ok w1 ∧
      (∀ j (hj : j < b.pages.length),
        (w1.pc b.pages[j]).writeback = false ∧ (w1.pc b.pages[j]).locked = false ∧
        (j < wrote_pages (env.osdc w.log.length) ((k0 * PAGE_CACHE_SIZE : Nat) : Int) →
          (w1.pc b.pages[j]).private_ = none ∧ (w1.pc b.pages[j]).dirty = false) ∧
        (wrote_pages (env.osdc w.log.length) ((k0 * PAGE_CACHE_SIZE : Nat) : Int) ≤ j →
          (w1.pc b.pages[j]).private_ = some snapc ∧ (w1.pc b.pages[j]).dirty = true)) ∧
      w1.ci = put w.ci (wrote_pages (env.osdc w.log.length)
        ((k0 * PAGE_CACHE_SIZE : Nat) : Int) : Nat) (some snapc) ∧
      w1.wbc.pages_skipped = w.wbc.pages_skipped +
        ((b.pages.length - wrote_pages (env.osdc w.log.length)
          ((k0 * PAGE_CACHE_SIZE : Nat) : Int) : Nat) : Int) ∧
      (0 ≤ env.osdc w.log.length → ∀ j : Nat,
        j < wrote_pages (env.osdc w.log.length) ((k0 * PAGE_CACHE_SIZE : Nat) : Int) ↔
          ((j * PAGE_CACHE_SIZE : Nat) : Int) < env.osdc w.log.length) ∧
      (env.osdc w.log.length < 0 →
        wrote_pages (env.osdc w.log.length) ((k0 * PAGE_CACHE_SIZE : Nat) : Int) = 0) ∧
      (env.osdc w.log.length ≤
          min (w.ci.i_size - ((k0 * PAGE_CACHE_SIZE : Nat) : Int))
            ((b.pages.length * PAGE_CACHE_SIZE : Nat) : Int) →
        wrote_pages (env.osdc w.log.length) ((k0 * PAGE_CACHE_SIZE : Nat) : Int)
          ≤ b.pages.length) := by
  obtain ⟨h1, ⟨a, h2, h2c⟩, h3⟩ := hb
  have hnd : b.pages.Nodup := by rw [h2]; exact List.nodup_range' _ _
  obtain ⟨r1, g1, g2, g3, g4⟩ := reconcile_pages_spec snapc
    (wrote_pages (env.osdc w.log.length) ((k0 * PAGE_CACHE_SIZE : Nat) : Int)) b.pages 0
    { pc := b.pc, nref := w.nref, pages_skipped := w.wbc.pages_skipped } hnd
    (fun k hk => (h3 k hk).1)
  obtain ⟨q1, q2, q3⟩ := wrote_pages_iff (env.osdc w.log.length) k0
  obtain ⟨w1, e1, e2, e3, e4⟩ : ∃ w1, write_batch put env cfg snapc w b k0 = .ok w1 ∧
      w1.pc = r1.pc ∧
      w1.ci = put w.ci (wrote_pages (env.osdc w.log.length)
        ((k0 * PAGE_CACHE_SIZE : Nat) : Int) : Nat) (some snapc) ∧
      w1.wbc.pages_skipped = r1.pages_skipped := by
    simp only [write_batch, g1]
    exact ⟨_, rfl, rfl, rfl, rfl⟩
  refine ⟨w1, e1, ?_, e3, ?_, q1, q2, ?_⟩
  · intro j hj
    rw [e2]
    have hc := g3 j hj
    simp only [Nat.zero_add] at hc
    obtain ⟨c1, c2, c3, c4, c5⟩ := clean_or_redirty_flags _ _ _ hc
    obtain ⟨-, b2, -, b4, -, -⟩ := h3 b.pages[j] (List.getElem_mem _)
    refine ⟨c1, c2, fun hlt => ?_, fun hge => ?_⟩
    · obtain ⟨d1, d2⟩ := c4 (by simpa using hlt)
      exact ⟨d1, by rw [d2, b2]⟩
    · obtain ⟨-, d1, d2⟩ := c5 (by simpa using hge)
      exact ⟨by rw [d1, b4], d2⟩
  · rw [e4, g4]
    simp only [Nat.zero_add]
    congr 2
    omega
  · intro h
    exact q3 b.pages.length (le_trans h (min_le_right _ _))

/-- The walk of lines 432-438: it stops at the first record with a nonzero
count; if every count is zero it ends on the last record, or leaves `capsnap`
as it was when the list is empty. -/
theorem find_dirty_capsnap_spec (caps : List CapSnap) :
    ∀ c : Option CapSnap,
      (∀ r, caps.find? (fun r => decide (r.dirty ≠ 0)) = some r →
        find_dirty_capsnap c caps = some r ∧ r.dirty ≠ 0) ∧
      (caps.find? (fun r => decide (r.dirty ≠ 0)) = none →
        (caps = [] ∧ find_dirty_capsnap c caps = c) ∨
        (∃ r, r.dirty = 0 ∧ find_dirty_capsnap c caps = some r)) := by
  induction caps with
  | nil =>
    intro c
    simp [find_dirty_capsnap]
  | cons r rs ih =>
    intro c
    by_cases hr : r.dirty = 0
    · obtain ⟨i1, i2⟩ := ih (some r)
      simp only [find_dirty_capsnap, hr, ne_eq, not_true_eq_false, if_false, List.find?_cons,
        decide_False]
      refine ⟨i1, fun h => ?_⟩
      rcases i2 h with ⟨h1, h2⟩ | h1
      · exact Or.inr ⟨r, hr, h2⟩
      · exact Or.inr h1
    · simp only [find_dirty_capsnap, ne_eq, hr, not_false_eq_true, if_true, List.find?_cons,
        decide_True]
      refine ⟨fun r1 h => ?_, fun h => by simp at h⟩
      simp only [Option.some.injEq] at h
      subst h
      exact ⟨rfl, hr⟩

/-- Epoch selection (lines 432-444): whenever a retired record has a nonzero
count the context of the first such record is selected, whatever `capsnap`
held before; the head context is selected when every record has count zero
(and the list is not empty or `capsnap` held no record with a nonzero count). -/
theorem select_snapc_spec (capsnap : Option CapSnap) (ci : Inode) :
    (∀ r, ci.i_cap_snaps.find? (fun r => decide (r.dirty ≠ 0)) = some r →
      (select_snapc capsnap ci).2 = some r.context) ∧
    (ci.i_cap_snaps.find? (fun r => decide (r.dirty ≠ 0)) = none →
      (ci.i_cap_snaps ≠ [] ∨ ∀ c, capsnap = some c → c.dirty = 0) →
      (select_snapc capsnap ci).2 = head_context ci) := by
  obtain ⟨f1, f2⟩ := find_dirty_capsnap_spec ci.i_cap_snaps capsnap
  refine ⟨fun r h => ?_, fun h hc => ?_⟩
  · obtain ⟨g1, g2⟩ := f1 r h
    simp [select_snapc, g1, g2]
  · rcases f2 h with ⟨h1, h2⟩ | ⟨r, h1, h2⟩
    · rcases hc with hc | hc
      · exact absurd h1 hc
      · simp only [select_snapc, h2]
        cases capsnap with
        | none => rfl
        | some c => simp [hc c rfl]
    · simp [select_snapc, h2, h1]

/-- The selection at `retry` keeps the invariant of the run. -/
theorem retry_select_inv (env : WpEnv) (cfg : ScanCfg) (w : Wp) (h : WpInv env cfg w) :
    WpInv env cfg (retry_select env w) := by
  obtain ⟨h1, h2, h3, -⟩ := h
  refine ⟨h1, h2, h3, fun c hc r hr => ?_⟩
  simp only [retry_select] at hc hr
  have := (select_snapc_spec (w.capsnap.map (env.reread w.log.length)) w.ci).1 r hr
  rw [this] at hc
  exact (Option.some.inj hc).symm

/-- Leaving the `while` loop keeps the invariant of the run. -/
theorem after_while_inv (env : WpEnv) (cfg : ScanCfg) (w : Wp) (h : WpInv env cfg w) :
    (∀ w1, after_while w = .inl w1 →
      WpInv env cfg w1 ∧ w.should_loop = true ∧ w1.should_loop = false ∧ w1.index = 0 ∧
      w1.bound = w.bound) ∧
    (∀ w1, after_while w = .inr w1 → WpInv env cfg w1) := by
  unfold after_while
  refine ⟨fun w1 h1 => ?_, fun w1 h1 => ?_⟩
  · split_ifs at h1 with c1
    simp only [Sum.inl.injEq] at h1
    subst h1
    exact ⟨h, c1.1, rfl, rfl, rfl⟩
  · split_ifs at h1 with c1 c2
    · simp only [Sum.inr.injEq] at h1
      subst h1
      exact h
    · simp only [Sum.inr.injEq] at h1
      subst h1
      exact h

/-- The bulk write of a well-formed batch ends without fatal fault, keeps the
invariant of the run and moves the cursor to `next`. -/
theorem write_batch_inv (put : CapRefsPut) (env : WpEnv) (cfg : ScanCfg) (snapc : Ctx)
    (lo : Nat) (w : Wp) (b : Batch) (k0 : Nat)
    (hw : WpInv env cfg w) (hs : w.snapc = some snapc)
    (hb : BatchOk cfg snapc lo w.bound b) (hne : b.pages ≠ []) :
    ∃ w1, write_batch put env cfg snapc w b k0 = .ok w1 ∧ WpInv env cfg w1 ∧
      w1.index = b.next ∧ w1.bound = w.bound ∧ w1.should_loop = w.should_loop ∧
      w1.snapc = some snapc := by
  obtain ⟨h1, ⟨a, h2, h2c⟩, h3⟩ := hb
  obtain ⟨i1, i2, i3, i4⟩ := hw
  have hnd : b.pages.Nodup := by rw [h2]; exact List.nodup_range' _ _
  obtain ⟨r1, g1, -, -, -⟩ := reconcile_pages_spec snapc
    (wrote_pages (env.osdc w.log.length) ((k0 * PAGE_CACHE_SIZE : Nat) : Int)) b.pages 0
    { pc := b.pc, nref := w.nref, pages_skipped := w.wbc.pages_skipped } hnd
    (fun k hk => (h3 k hk).1)
  simp only [write_batch, g1]
  refine ⟨_, rfl, ⟨?_, ?_, ?_, ?_⟩, rfl, rfl, rfl, hs⟩
  · intro e he
    simp only [List.mem_append, List.mem_singleton] at he
    rcases he with he | he
    · exact i1 e he
    · subst he
      refine ⟨⟨i4 snapc hs, ?_, ?_, ?_, ?_⟩, rfl⟩
      · intro kp hkp
        simp only [List.mem_map] at hkp
        obtain ⟨k, hk, rfl⟩ := hkp
        obtain ⟨c1, c2, c3, c4, -, -⟩ := h3 k hk
        exact ⟨c4, c2, c3, c1⟩
      · simpa using hne
      · simpa using h1
      · refine ⟨a, ?_⟩
        simp only [List.map_map, List.length_map]
        rw [← h2]
        exact List.map_id _
  · intro i hi
    simp only [List.length_append, List.length_singleton] at hi
    by_cases hlt : i < w.log.length
    · rw [List.getElem_append_left hlt]
      exact i2 i hlt
    · have : i = w.log.length := by omega
      subst this
      simp
  · simp [last_rc]
  · intro c hc
    exact i4 c hc

/-- The bulk write of a well-formed batch keeps the account of the skipped
pages: the new entry of the log is settled and the counter grows by the pages
it counts as skipped. -/
theorem write_batch_settled (put : CapRefsPut) (env : WpEnv) (cfg : ScanCfg) (snapc : Ctx)
    (lo : Nat) (w w1 : Wp) (b : Batch) (k0 : Nat) (sk0 : Int)
    (hs : SkipInv sk0 w) (hb : BatchOk cfg snapc lo w.bound b)
    (h : write_batch put env cfg snapc w b k0 = .ok w1) :
    SkipInv sk0 w1 := by
  obtain ⟨h1, ⟨a, h2, h2c⟩, h3⟩ := hb
  obtain ⟨s1, s2⟩ := hs
  have hnd : b.pages.Nodup := by rw [h2]; exact List.nodup_range' _ _
  obtain ⟨r1, g1, -, g3, g4⟩ := reconcile_pages_spec snapc
    (wrote_pages (env.osdc w.log.length) ((k0 * PAGE_CACHE_SIZE : Nat) : Int)) b.pages 0
    { pc := b.pc, nref := w.nref, pages_skipped := w.wbc.pages_skipped } hnd
    (fun k hk => (h3 k hk).1)
  simp only [write_batch, g1, Res.ok.injEq] at h
  subst h
  refine ⟨fun e he => ?_, ?_⟩
  · simp only [List.mem_append, List.mem_singleton] at he
    rcases he with he | he
    · exact s1 e he
    · subst he
      refine ⟨by simp [List.map_map, Function.comp_def], fun j hj => ?_⟩
      have hj1 : j < b.pages.length := by simpa using hj
      have hc := g3 j hj1
      simp only [Nat.zero_add] at hc
      obtain ⟨c1, c2, c3, c4, c5⟩ := clean_or_redirty_flags _ _ _ hc
      obtain ⟨-, b2, -, b4, -, -⟩ := h3 b.pages[j] (List.getElem_mem _)
      simp only [List.getElem_map]
      refine ⟨c1, c2, fun hlt => ?_, fun hge => ?_⟩
      · obtain ⟨d1, d2⟩ := c4 (by simpa using hlt)
        exact ⟨d1, by rw [d2, b2]⟩
      · obtain ⟨-, d1, d2⟩ := c5 (by simpa using hge)
        exact ⟨by rw [d1, b4], d2⟩
  · simp only [g4, s2, List.map_append, List.sum_append, List.map_cons, List.map_nil,
      List.sum_cons, List.sum_nil, skipped_of, List.length_map, Nat.zero_add, Nat.add_zero]
    push_cast
    omega

/-- A step that leaves the log and the skipped counter alone keeps the account
of the skipped pages. -/
theorem skip_inv_of_eq (sk0 : Int) (w w1 : Wp) (hs : SkipInv sk0 w) (hl : w1.log = w.log)
    (hk : w1.wbc.pages_skipped = w.wbc.pages_skipped) : SkipInv sk0 w1 := by
  obtain ⟨s1, s2⟩ := hs
  exact ⟨by rw [hl]; exact s1, by rw [hl, hk]; exact s2⟩

/-- Leaving the `while` loop changes neither the log nor the `wbc`. -/
theorem after_while_same (w w1 : Wp) (h : after_while w = .inl w1 ∨ after_while w = .inr w1) :
    w1.log = w.log ∧ w1.wbc = w.wbc := by
  unfold after_while at h
  split_ifs at h <;> rcases h with h | h <;>
    first
      | (simp only [Sum.inl.injEq] at h; subst h; exact ⟨rfl, rfl⟩)
      | (simp only [Sum.inr.injEq] at h; subst h; exact ⟨rfl, rfl⟩)
      | simp at h

/-- Lines 426-656 end without fatal fault and without running out of fuel once
the fuel reaches `fuel_needed`, and they keep the invariant of the run and the
account of the skipped pages. -/
theorem writepages_run_spec (put : CapRefsPut) (env : WpEnv) (cfg : ScanCfg) (sk0 : Int) :
    ∀ (fuel : Nat) (label : Label) (w : Wp), fuel_needed label w ≤ fuel → WpInv env cfg w →
      SkipInv sk0 w →
      ∃ w1, writepages_run put env cfg fuel label w = .ok w1 ∧ WpInv env cfg w1 ∧
        SkipInv sk0 w1 := by
  intro fuel
  induction fuel with
  | zero =>
    intro label w h
    cases label <;> simp [fuel_needed] at h
  | succ fuel ih =>
    intro label w hf hw hk
    cases label with
    | retry =>
      simp only [writepages_run]
      have hsel := retry_select_inv env cfg w hw
      have hksel : SkipInv sk0 (retry_select env w) := skip_inv_of_eq sk0 w _ hk rfl rfl
      split
      · exact ⟨_, rfl, hsel, hksel⟩
      · refine ih .loop (retry_select env w) ?_ hsel hksel
        simp only [fuel_needed, retry_select] at hf ⊢
        omega
    | loop =>
      obtain ⟨pc, bound, wbi, ci, nref, wbc, index, end_, rw, sl, done, rc, sn, cs, seen, log⟩ := w
      simp only [writepages_run]
      have exit_ok : ∀ w0 : Wp, WpInv env cfg w0 → SkipInv sk0 w0 → w0.bound = bound →
          w0.should_loop = sl →
          ∃ w1, (match after_while w0 with
                 | .inl w1 => writepages_run put env cfg fuel .retry w1
                 | .inr w1 => .ok w1) = .ok w1 ∧ WpInv env cfg w1 ∧ SkipInv sk0 w1 := by
        intro w0 hw0 hk0 hb0 hl0
        obtain ⟨a1, a2⟩ := after_while_inv env cfg w0 hw0
        cases ha : after_while w0 with
        | inl w1 =>
          obtain ⟨b1, b2, b3, b4, b5⟩ := a1 w1 ha
          obtain ⟨q1, q2⟩ := after_while_same w0 w1 (Or.inl ha)
          simp only
          refine ih .retry w1 ?_ b1 (skip_inv_of_eq sk0 w0 w1 hk0 q1 (by rw [q2]))
          simp only [fuel_needed, b3, b4, b5, hb0] at hf ⊢
          rw [← hl0, b2] at hf
          simp only [if_true] at hf
          simp only [Bool.false_eq_true, if_false]
          omega
        | inr w1 =>
          obtain ⟨q1, q2⟩ := after_while_same w0 w1 (Or.inr ha)
          exact ⟨w1, rfl, a2 w1 ha, skip_inv_of_eq sk0 w0 w1 hk0 q1 (by rw [q2])⟩
      cases sn with
      | none => exact ⟨_, rfl, hw, hk⟩
      | some snapc =>
        simp only
        split
        · exact exit_ok _ hw hk rfl rfl
        · have hb0 : BatchOk cfg snapc index bound
              { pc := pc, pages := [], next := 0, done := done, first := -1 } :=
            ⟨by simp, ⟨0, by simp, fun h => absurd rfl h⟩, fun k hk => by simp at hk⟩
          rcases get_more_pages_spec cfg bound ci.i_size snapc index (bound + 1) index
              { pc := pc, pages := [], next := 0, done := done, first := -1 }
              (by omega) (le_refl _) hb0 (fun _ => rfl) with ⟨h, -⟩ | ⟨b1, index1, h, hb1, hidx⟩
          · simp only [h]
            exact exit_ok _ hw hk rfl rfl
          · simp only [h]
            have hwi : ∀ (pc1 : Nat → Page) (i : Nat) (d : Bool),
                WpInv env cfg
                  { pc := pc1, bound := bound, writeback_index := wbi, ci := ci, nref := nref,
                    wbc := wbc, index := i, end_ := end_, range_whole := rw, should_loop := sl,
                    done := d, rc := rc, snapc := some snapc, capsnap := cs, seen := seen,
                    log := log } := fun _ _ _ => hw
            have hki : ∀ (pc1 : Nat → Page) (i : Nat) (d : Bool),
                SkipInv sk0
                  { pc := pc1, bound := bound, writeback_index := wbi, ci := ci, nref := nref,
                    wbc := wbc, index := i, end_ := end_, range_whole := rw, should_loop := sl,
                    done := d, rc := rc, snapc := some snapc, capsnap := cs, seen := seen,
                    log := log } := fun _ _ _ => hk
            cases hp : b1.pages with
            | nil =>
              simp only
              obtain ⟨c1, c2⟩ := hidx hp
              refine ih .loop _ ?_ (hwi _ _ _) (hki _ _ _)
              simp only [fuel_needed] at hf ⊢
              split_ifs at hf ⊢ <;> omega
            | cons k0 rest =>
              simp only
              have hne : b1.pages ≠ [] := by simp [hp]
              obtain ⟨w1, e1, e2, e3, e4, e5, e6⟩ := write_batch_inv put env cfg snapc index
                _ b1 k0 (hwi pc index1 done) rfl hb1 hne
              have e7 : SkipInv sk0 w1 :=
                write_batch_settled put env cfg snapc index _ w1 b1 k0 sk0
                  (hki pc index1 done) hb1 e1
              simp only [e1]
              obtain ⟨-, ⟨a, ha, hc⟩, -⟩ := hb1
              obtain ⟨d1, d2, d3⟩ := hc hne
              have hlen : b1.pages.length ≠ 0 := fun h0 => hne (List.length_eq_zero.mp h0)
              have hfn : ∀ l, fuel_needed l w1 ≤ fuel := by
                intro l
                simp only [fuel_needed, e3, e4, e5] at hf ⊢
                cases l <;> split_ifs at hf ⊢ <;> simp only at hf ⊢ <;> omega
              split
              · exact ih .loop w1 (hfn _) e2 e7
              · exact ih .retry w1 (hfn _) e2 e7

/-- A run of `ceph_writepages` with an allocated page vector: it ends without
fatal fault and within its fuel; its return value is the result of the last
bulk write, with a positive value replaced by 0; every bulk write it issued is
well formed, got the answer of the transport for its number and was settled as
`SettledWrite` says; and `wbc->pages_skipped` has grown by the pages the bulk
writes count as skipped. -/
theorem ceph_writepages_spec (put : CapRefsPut) (env : WpEnv) (m : Mapping)
    (halloc : env.alloc_fails = false) :
    ∃ w, ceph_writepages put env m =
        .ok (if last_rc w.log > 0 then 0 else last_rc w.log, w) ∧
      (∀ e ∈ w.log, GoodWrite e ∧
        e.max_pages = max_pages_of m.ci.i_blkbits env.mount_wsize) ∧
      (∀ i (h : i < w.log.length), w.log[i].rc = env.osdc i) ∧
      (∀ e ∈ w.log, SettledWrite e) ∧
      w.wbc.pages_skipped =
        m.wbc.pages_skipped + (((w.log.map skipped_of).sum : Nat) : Int) := by
  have key : ∀ (cfg : ScanCfg) (w0 : Wp), w0.bound = m.bound → w0.log = [] → w0.rc = 0 →
      w0.snapc = none → cfg.max_pages = max_pages_of m.ci.i_blkbits env.mount_wsize →
      w0.wbc = m.wbc →
      ∃ w, (match writepages_run put env cfg (4 * m.bound + 4) .retry w0 with
            | .ok w =>
              Res.ok (if w.rc > 0 then 0 else w.rc,
                { w with nref := ceph_put_snap_context w.snapc w.nref })
            | .bug => .bug
            | .timeout => .timeout) =
          .ok (if last_rc w.log > 0 then 0 else last_rc w.log, w) ∧
        (∀ e ∈ w.log, GoodWrite e ∧
          e.max_pages = max_pages_of m.ci.i_blkbits env.mount_wsize) ∧
        (∀ i (h : i < w.log.length), w.log[i].rc = env.osdc i) ∧
        (∀ e ∈ w.log, SettledWrite e) ∧
        w.wbc.pages_skipped =
          m.wbc.pages_skipped + (((w.log.map skipped_of).sum : Nat) : Int) := by
    intro cfg w0 h0 h1 h2 h3 h4 h5
    have hinit : WpInv env cfg w0 := by
      refine ⟨fun e he => ?_, fun i hi => ?_, ?_, fun c hc => ?_⟩
      · rw [h1] at he; simp at he
      · rw [h1] at hi; simp at hi
      · rw [h1, h2]; rfl
      · rw [h3] at hc; simp at hc
    have hskip : SkipInv m.wbc.pages_skipped w0 := by
      refine ⟨fun e he => ?_, ?_⟩
      · rw [h1] at he; simp at he
      · rw [h1, h5]; simp
    obtain ⟨w1, r1, ⟨r2, r3, r4, -⟩, r5, r6⟩ := writepages_run_spec put env cfg
      m.wbc.pages_skipped (4 * m.bound + 4) .retry w0
      (by
        simp only [fuel_needed, h0]
        split_ifs <;> omega)
      hinit hskip
    rw [r1]
    simp only
    refine ⟨{ w1 with nref := ceph_put_snap_context w1.snapc w1.nref }, ?_,
      fun e he => ?_, r3, r5, r6⟩
    · simp only [r4]
    · rw [← h4]; exact r2 e he
  unfold ceph_writepages
  simp only [halloc, Bool.false_eq_true, if_false]
  exact key _ _ rfl rfl rfl rfl rfl rfl

/-- C9, as the code has it: whenever the page vector is allocated,
`ceph_writepages` returns; the value is 0 if no bulk write was issued or if the
last bulk write issued returned `rc ≥ 0`, and it is the negative `rc` of the
last bulk write issued if that one failed.  Failures of earlier bulk writes
never show in the return value.  Every bulk write gets the answer of the
transport for its number, and when that answer is negative the loop of lines
608-624 leaves every page of the batch dirty with the context of the request
attached, not under writeback and unlocked, and counts all of them as skipped;
`wbc->pages_skipped` grows over the call by the sum of these counts. -/
theorem ceph_writepages_return (put : CapRefsPut) (env : WpEnv) (m : Mapping)
    (halloc : env.alloc_fails = false) :
    ∃ ret w, ceph_writepages put env m = .ok (ret, w) ∧
      (w.log = [] → ret = 0) ∧
      (∀ e, w.log.getLast? = some e →
        e.rc = env.osdc (w.log.length - 1) ∧ (0 ≤ e.rc → ret = 0) ∧ (e.rc < 0 → ret = e.rc)) ∧
      (∀ i (h : i < w.log.length), w.log[i].rc = env.osdc i) ∧
      (∀ e ∈ w.log, e.rc < 0 →
        e.pages ≠ [] ∧ e.after.map Prod.fst = e.pages.map Prod.fst ∧
        (∀ kp ∈ e.after, kp.2.dirty = true ∧ kp.2.private_ = some e.snapc ∧
          kp.2.writeback = false ∧ kp.2.locked = false) ∧
        skipped_of e = e.pages.length) ∧
      w.wbc.pages_skipped =
        m.wbc.pages_skipped + (((w.log.map skipped_of).sum : Nat) : Int) := by
  obtain ⟨w, h1, h2, h3, h4, h5⟩ := ceph_writepages_spec put env m halloc
  refine ⟨_, w, h1, fun h => ?_, fun e he => ?_, h3, fun e he hneg => ?_, h5⟩
  · simp [last_rc, h]
  · have hl : last_rc w.log = e.rc := by simp [last_rc, he]
    have hne : w.log ≠ [] := by
      intro h; rw [h] at he; simp at he
    have hlen : w.log.length - 1 < w.log.length := by
      have := List.length_pos.mpr hne
      omega
    have hget : w.log[w.log.length - 1] = e := by
      rw [List.getLast?_eq_getElem?] at he
      rw [List.getElem?_eq_getElem hlen] at he
      exact Option.some.inj he
    refine ⟨by rw [← hget]; exact h3 _ hlen, fun h => ?_, fun h => ?_⟩
    · rw [hl]
      split_ifs with hpos
      · rfl
      · omega
    · rw [hl]
      split_ifs with hpos
      · omega
      · rfl
  · obtain ⟨s1, s2⟩ := h4 e he
    have hz : wrote_pages e.rc e.offset = 0 := by
      unfold wrote_pages
      rw [if_neg (by omega)]
    refine ⟨(h2 e he).1.2.2.1, s1, fun kp hkp => ?_, by simp [skipped_of, hz]⟩
    obtain ⟨j, hj, rfl⟩ := List.getElem_of_mem hkp
    obtain ⟨t1, t2, -, t4⟩ := s2 j hj
    obtain ⟨t5, t6⟩ := t4 (by rw [hz]; exact Nat.zero_le _)
    exact ⟨t6, t5, t1, t2⟩

/-- Witness of C9: the scan of `example_mapping3` when the first bulk write,
of the pages 0, 1 and 2, fails with -5 and the second, of page 5, succeeds: the
call returns 0, the three pages of the failed write are dirty again under
context 2 and counted as skipped, and page 5 is clean. -/
theorem ceph_writepages_return_witness :
    example_env_first_fails.alloc_fails = false ∧
    (∃ ret w, ceph_writepages ceph_put_wrbuffer_cap_refs example_env_first_fails
        example_mapping3 = .ok (ret, w) ∧
      (w.log = [] → ret = 0) ∧
      (∀ e, w.log.getLast? = some e →
        e.rc = example_env_first_fails.osdc (w.log.length - 1) ∧
        (0 ≤ e.rc → ret = 0) ∧ (e.rc < 0 → ret = e.rc)) ∧
      (∀ i (h : i < w.log.length), w.log[i].rc = example_env_first_fails.osdc i) ∧
      (∀ e ∈ w.log, e.rc < 0 →
        e.pages ≠ [] ∧ e.after.map Prod.fst = e.pages.map Prod.fst ∧
        (∀ kp ∈ e.after, kp.2.dirty = true ∧ kp.2.private_ = some e.snapc ∧
          kp.2.writeback = false ∧ kp.2.locked = false) ∧
        skipped_of e = e.pages.length) ∧
      w.wbc.pages_skipped =
        example_mapping3.wbc.pages_skipped + (((w.log.map skipped_of).sum : Nat) : Int)) ∧
    (run_result (ceph_writepages ceph_put_wrbuffer_cap_refs example_env_first_fails
        example_mapping3) (7, example_wp)).1 = 0 ∧
    (run_result (ceph_writepages ceph_put_wrbuffer_cap_refs example_env_first_fails
        example_mapping3) (7, example_wp)).2.log.map
      (fun e => (e.rc, e.pages.map Prod.fst,
        e.after.map (fun kp => (kp.2.dirty, kp.2.private_)), skipped_of e)) =
      [(-5, [0, 1, 2], [(true, some 2), (true, some 2), (true, some 2)], 3),
       (4096, [5], [(false, none)], 0)] ∧
    (run_result (ceph_writepages ceph_put_wrbuffer_cap_refs example_env_first_fails
        example_mapping3) (7, example_wp)).2.wbc.pages_skipped = 3 :=
  ⟨rfl,
   ceph_writepages_return ceph_put_wrbuffer_cap_refs example_env_first_fails example_mapping3 rfl,
   by decide, by rfl, by decide⟩

/-- C9 fails as stated: in the cyclic scan of `example_mapping` every bulk
write fails with -5; the pages stay dirty and are counted as skipped, and
`ceph_writepages` returns -5, not 0. -/
theorem ceph_writepages_return_counterexample :
    (example_env (-5)).alloc_fails = false ∧
    ∃ w, ceph_writepages ceph_put_wrbuffer_cap_refs (example_env (-5)) example_mapping
        = .ok (-5, w) ∧
      w.log.map (fun e => e.rc) = [-5, -5] ∧
      (w.pc 1).dirty = true ∧ w.wbc.pages_skipped = 2 :=
  ⟨rfl, _, by rfl, by decide, by decide, by decide⟩

/-- C3: at every `retry` the selection takes the context of the first retired
record whose dirty count is nonzero whenever there is one, whatever the local
`capsnap` held before, and records the list it saw; it takes the head context
when every record has count zero (the list being non-empty or `capsnap` still
NULL).  Consequently every bulk write of a run of `ceph_writepages`, issued
while the list seen at the preceding selection has a record with a nonzero
count, carries the context of the first such record, and every page handed
over is attached to that context. -/
theorem oldest_epoch_first (put : CapRefsPut) (env : WpEnv) (m : Mapping) (ret : Int) (w : Wp)
    (hrun : ceph_writepages put env m = .ok (ret, w)) :
    (∀ (w0 : Wp) (r : CapSnap),
      w0.ci.i_cap_snaps.find? (fun r => decide (r.dirty ≠ 0)) = some r →
      (retry_select env w0).snapc = some r.context ∧
      (retry_select env w0).seen = w0.ci.i_cap_snaps) ∧
    (∀ (w0 : Wp), (∀ r ∈ w0.ci.i_cap_snaps, r.dirty = 0) →
      w0.ci.i_cap_snaps ≠ [] ∨ w0.capsnap = none →
      (retry_select env w0).snapc = head_context w0.ci) ∧
    (∀ e ∈ w.log, ∀ r, e.seen.find? (fun r => decide (r.dirty ≠ 0)) = some r →
      e.snapc = r.context ∧ ∀ kp ∈ e.pages, kp.2.private_ = some r.context) := by
  refine ⟨fun w0 r hr => ?_, fun w0 hz hc => ?_, ?_⟩
  · exact ⟨(select_snapc_spec _ w0.ci).1 r hr, rfl⟩
  · refine (select_snapc_spec _ w0.ci).2 ?_ ?_
    · rw [List.find?_eq_none]
      intro r hr
      simp [hz r hr]
    · rcases hc with hc | hc
      · exact Or.inl hc
      · exact Or.inr (fun c h => by rw [hc] at h; simp at h)
  · cases ha : env.alloc_fails with
    | true =>
      unfold ceph_writepages at hrun
      simp only [ha, if_true, Res.ok.injEq, Prod.mk.injEq] at hrun
      obtain ⟨-, rfl⟩ := hrun
      intro e he
      simp at he
    | false =>
      obtain ⟨w1, h1, h2, -⟩ := ceph_writepages_spec put env m ha
      rw [h1] at hrun
      simp only [Res.ok.injEq, Prod.mk.injEq] at hrun
      obtain ⟨-, rfl⟩ := hrun
      intro e he r hr
      obtain ⟨⟨g1, g2, -⟩, -⟩ := h2 e he
      have := g1 r hr
      refine ⟨this, fun kp hkp => ?_⟩
      rw [← this]
      exact (g2 kp hkp).1

/-- Witness of C3: the cyclic scan of `example_mapping`, where the page at
index 0 is dirty under the head context 2 and the page at index 1 under the
retired context 1.  The run issues two bulk writes, the first for context 1. -/
theorem oldest_epoch_first_witness :
    ceph_writepages ceph_put_wrbuffer_cap_refs (example_env 4096) example_mapping =
      .ok ((run_result (ceph_writepages ceph_put_wrbuffer_cap_refs (example_env 4096)
              example_mapping) (0, example_wp)).1,
           (run_result (ceph_writepages ceph_put_wrbuffer_cap_refs (example_env 4096)
              example_mapping) (0, example_wp)).2) ∧
    (run_result (ceph_writepages ceph_put_wrbuffer_cap_refs (example_env 4096)
        example_mapping) (0, example_wp)).2.log.map (fun e => (e.snapc, e.pages.map Prod.fst))
      = [(1, [1]), (2, [0])] ∧
    ((∀ (w0 : Wp) (r : CapSnap),
      w0.ci.i_cap_snaps.find? (fun r => decide (r.dirty ≠ 0)) = some r →
      (retry_select (example_env 4096) w0).snapc = some r.context ∧
      (retry_select (example_env 4096) w0).seen = w0.ci.i_cap_snaps) ∧
    (∀ (w0 : Wp), (∀ r ∈ w0.ci.i_cap_snaps, r.dirty = 0) →
      w0.ci.i_cap_snaps ≠ [] ∨ w0.capsnap = none →
      (retry_select (example_env 4096) w0).snapc = head_context w0.ci) ∧
    (∀ e ∈ (run_result (ceph_writepages ceph_put_wrbuffer_cap_refs (example_env 4096)
        example_mapping) (0, example_wp)).2.log,
      ∀ r, e.seen.find? (fun r => decide (r.dirty ≠ 0)) = some r →
      e.snapc = r.context ∧ ∀ kp ∈ e.pages, kp.2.private_ = some r.context)) :=
  ⟨by rfl, by decide,
    oldest_epoch_first ceph_put_wrbuffer_cap_refs (example_env 4096) example_mapping _ _
      (by rfl)⟩

/-- The batch `example_batch3` is well formed for a scan that started at index 0
under context 2. -/
theorem example_batch3_ok : BatchOk example_cfg3 2 0 example_wp3.bound example_batch3 := by
  refine ⟨by decide, ⟨0, rfl, fun _ => ⟨by decide, by decide, rfl⟩⟩, fun k hk => ?_⟩
  have : k = 0 ∨ k = 1 ∨ k = 2 := by simpa [example_batch3] using hk
  rcases this with h | h | h <;> subst h <;>
    exact ⟨rfl, rfl, rfl, rfl, rfl, fun _ => by simp [example_cfg3]⟩

/-- Witness of C4: the batch `example_batch3` of three pages, with a request of
12288 bytes of which the transport reports 8192 written: `wrote` is 2, the
pages 0 and 1 are cleaned and page 2 is redirtied under context 2, two
accounting references are released and one page is counted as skipped. -/
theorem write_batch_reconciles_witness :
    BatchOk example_cfg3 2 0 example_wp3.bound example_batch3 ∧
    example_batch3.pages.head? = some 0 ∧
    (∃ w1, write_batch ceph_put_wrbuffer_cap_refs (example_env 8192) example_cfg3 2 example_wp3
        example_batch3 0 = .ok w1 ∧
      (∀ j (hj : j < example_batch3.pages.length),
        (w1.pc example_batch3.pages[j]).writeback = false ∧
        (w1.pc example_batch3.pages[j]).locked = false ∧
        (j < wrote_pages ((example_env 8192).osdc example_wp3.log.length)
            ((0 * PAGE_CACHE_SIZE : Nat) : Int) →
          (w1.pc example_batch3.pages[j]).private_ = none ∧
          (w1.pc example_batch3.pages[j]).dirty = false) ∧
        (wrote_pages ((example_env 8192).osdc example_wp3.log.length)
            ((0 * PAGE_CACHE_SIZE : Nat) : Int) ≤ j →
          (w1.pc example_batch3.pages[j]).private_ = some 2 ∧
          (w1.pc example_batch3.pages[j]).dirty = true)) ∧
      w1.ci = ceph_put_wrbuffer_cap_refs example_wp3.ci
        (wrote_pages ((example_env 8192).osdc example_wp3.log.length)
          ((0 * PAGE_CACHE_SIZE : Nat) : Int) : Nat) (some 2) ∧
      w1.wbc.pages_skipped = example_wp3.wbc.pages_skipped +
        ((example_batch3.pages.length - wrote_pages
          ((example_env 8192).osdc example_wp3.log.length)
          ((0 * PAGE_CACHE_SIZE : Nat) : Int) : Nat) : Int) ∧
      (0 ≤ (example_env 8192).osdc example_wp3.log.length → ∀ j : Nat,
        j < wrote_pages ((example_env 8192).osdc example_wp3.log.length)
            ((0 * PAGE_CACHE_SIZE : Nat) : Int) ↔
          ((j * PAGE_CACHE_SIZE : Nat) : Int) < (example_env 8192).osdc example_wp3.log.length) ∧
      ((example_env 8192).osdc example_wp3.log.length < 0 →
        wrote_pages ((example_env 8192).osdc example_wp3.log.length)
          ((0 * PAGE_CACHE_SIZE : Nat) : Int) = 0) ∧
      ((example_env 8192).osdc example_wp3.log.length ≤
          min (example_wp3.ci.i_size - ((0 * PAGE_CACHE_SIZE : Nat) : Int))
            ((example_batch3.pages.length * PAGE_CACHE_SIZE : Nat) : Int) →
        wrote_pages ((example_env 8192).osdc example_wp3.log.length)
          ((0 * PAGE_CACHE_SIZE : Nat) : Int) ≤ example_batch3.pages.length)) ∧
    (example_batch3.pages.length = 3 ∧
      min (example_wp3.ci.i_size - ((0 * PAGE_CACHE_SIZE : Nat) : Int))
        ((example_batch3.pages.length * PAGE_CACHE_SIZE : Nat) : Int) = 12288 ∧
      wrote_pages ((example_env 8192).osdc example_wp3.log.length)
        ((0 * PAGE_CACHE_SIZE : Nat) : Int) = 2 ∧
      example_wp3.ci.i_wrbuffer_ref = 4 ∧ example_wp3.wbc.pages_skipped = 0) ∧
    (∃ w1, write_batch ceph_put_wrbuffer_cap_refs (example_env 8192) example_cfg3 2 example_wp3
        example_batch3 0 = .ok w1 ∧
      [0, 1, 2].map (fun k => ((w1.pc k).private_, (w1.pc k).dirty, (w1.pc k).writeback,
          (w1.pc k).locked)) =
        [(none, false, false, false), (none, false, false, false),
         (some 2, true, false, false)] ∧
      w1.ci.i_wrbuffer_ref = 2 ∧ w1.ci.i_wrbuffer_ref_head = 2 ∧
      w1.wbc.pages_skipped = 1) :=
  ⟨example_batch3_ok, rfl,
    write_batch_reconciles ceph_put_wrbuffer_cap_refs (example_env 8192) example_cfg3 2 0
      example_wp3 example_batch3 0 example_batch3_ok rfl,
    ⟨rfl, by decide, by decide, by decide, by decide⟩,
    ⟨_, rfl, by rfl, by decide, by decide, by decide⟩⟩

/-- C4 fails as stated: the batch `example_batch3` of three pages is written
with a request of 12288 bytes and the transport reports 4097 bytes written.
Of page 1 only the first byte lies within the first 4097 bytes, so by the claim
only page 0 is cleaned, one reference released and two pages skipped; the code
rounds up to `wrote = 2`: the pages 0 and 1 are cleaned (context detached, not
dirty), page 2 is redirtied, two accounting references are released and one
page is counted as skipped. -/
theorem write_batch_reconciles_counterexample :
    BatchOk example_cfg3 2 0 example_wp3.bound example_batch3 ∧
    example_batch3.pages = [0, 1, 2] ∧
    min (example_wp3.ci.i_size - ((0 * PAGE_CACHE_SIZE : Nat) : Int))
      ((example_batch3.pages.length * PAGE_CACHE_SIZE : Nat) : Int) = 12288 ∧
    (example_env 4097).osdc example_wp3.log.length = 4097 ∧
    min (((0 + 1) * PAGE_CACHE_SIZE : Nat) : Int) 12288 ≤ (4097 : Int) ∧
    ¬ (min (((1 + 1) * PAGE_CACHE_SIZE : Nat) : Int) 12288 ≤ (4097 : Int)) ∧
    ¬ (min (((2 + 1) * PAGE_CACHE_SIZE : Nat) : Int) 12288 ≤ (4097 : Int)) ∧
    ∃ w1, write_batch ceph_put_wrbuffer_cap_refs (example_env 4097) example_cfg3 2 example_wp3
        example_batch3 0 = .ok w1 ∧
      [0, 1, 2].map (fun k => ((w1.pc k).private_, (w1.pc k).dirty, (w1.pc k).writeback,
          (w1.pc k).locked)) =
        [(none, false, false, false), (none, false, false, false),
         (some 2, true, false, false)] ∧
      w1.ci.i_wrbuffer_ref = example_wp3.ci.i_wrbuffer_ref - 2 ∧
      w1.wbc.pages_skipped = example_wp3.wbc.pages_skipped + 1 :=
  ⟨example_batch3_ok, rfl, by decide, rfl, by decide, by decide, by decide,
    _, rfl, by rfl, by decide, by decide⟩

/-! ## `ceph_write_end` -/

/-- What the `set_page_dirty` of `ceph_write_end` does on an inode with a snap
realm: it ends without fatal fault and leaves the page dirty; the bytes of the
page, its up-to-date flag and the size of the inode are as before.  Only under
a truncation race is the accounting helper called, and it is then taken to
leave the size alone. -/
theorem set_page_dirty_ok (put : CapRefsPut) (truncated : Bool) (s : PageSt) (realm : SnapRealm)
    (hr : s.ci.i_snap_realm = some realm)
    (hput : truncated = true → ∀ ci n c, (put ci n c).i_size = ci.i_size) :
    ∃ r s1, set_page_dirty put truncated s = .ok (r, s1) ∧ s1.page.dirty = true ∧
      s1.data = s.data ∧ s1.page.uptodate = s.page.uptodate ∧ s1.ci.i_size = s.ci.i_size := by
  obtain ⟨page, data, ci, nref⟩ := s
  obtain ⟨m, l, d, w, u, ck, t, pr, hp⟩ := page
  simp only at hr
  unfold set_page_dirty ceph_set_page_dirty_vfs ceph_set_page_dirty
  simp only [TestSetPageDirty, hr]
  cases m <;> cases d <;> cases truncated <;>
    simp only [set_page_dirty_finish, Bool.not_true, Bool.not_false, if_true, if_false,
      Bool.false_eq_true] <;>
    first
      | exact ⟨_, _, rfl, rfl, rfl, rfl, rfl⟩
      | exact ⟨_, _, rfl, rfl, rfl, rfl, by simp [hput rfl]⟩

/-- C11: a `ceph_write_end` with `copied < len` and the write window inside the
page, on an inode with a snap realm (which `ceph_write_begin` asserts), returns
`copied`; on return the bytes at the page positions from `from + copied` up to
`from + len` are zero and every other byte of the page is as before, the page
is up to date and dirty, and the size of the inode is the larger of the old
size and `pos + copied`.  If a truncate races with the dirtying of the page,
the accounting helper is called and is taken to leave the size alone. -/
theorem write_end_short_copy (put : CapRefsPut) (truncated : Bool) (s : PageSt)
    (realm : SnapRealm) (pos len copied : Nat)
    (hshort : copied < len) (_hwin : pos % PAGE_CACHE_SIZE + len ≤ PAGE_SIZE)
    (hr : s.ci.i_snap_realm = some realm)
    (hput : truncated = true → ∀ ci n c, (put ci n c).i_size = ci.i_size) :
    ∃ s1, ceph_write_end put truncated s pos len copied = .ok ((copied : Int), s1) ∧
      (∀ p, pos % PAGE_CACHE_SIZE + copied ≤ p → p < pos % PAGE_CACHE_SIZE + len →
        s1.data p = 0) ∧
      (∀ p, ¬ (pos % PAGE_CACHE_SIZE + copied ≤ p ∧ p < pos % PAGE_CACHE_SIZE + len) →
        s1.data p = s.data p) ∧
      s1.page.uptodate = true ∧ s1.page.dirty = true ∧
      s1.ci.i_size = max s.ci.i_size ((pos + copied : Nat) : Int) := by
  have hr1 : ∀ ci1 : Inode, ci1.i_snap_realm = s.ci.i_snap_realm →
      ∀ d : Nat → Nat, ∃ r s1,
        set_page_dirty put truncated
          { s with data := d, ci := ci1, page := { s.page with uptodate := true } } = .ok (r, s1) ∧
        s1.page.dirty = true ∧ s1.data = d ∧ s1.page.uptodate = true ∧
        s1.ci.i_size = ci1.i_size := by
    intro ci1 h1 d
    exact set_page_dirty_ok put truncated _ realm (by simp only [h1, hr]) hput
  unfold ceph_write_end
  simp only [hshort, if_true]
  by_cases hsz : ((pos + copied : Nat) : Int) > s.ci.i_size
  · obtain ⟨r, s1, e1, e2, e3, e4, e5⟩ := hr1 (ceph_inode_set_size s.ci ((pos + copied : Nat) : Int))
      rfl (memset_zero s.data (pos % PAGE_CACHE_SIZE + copied) (len - copied))
    simp only [hsz, if_true, e1]
    refine ⟨_, rfl, fun p h1 h2 => ?_, fun p h => ?_, ?_, ?_, ?_⟩
    · simp only [unlock_page, e3, memset_zero]
      have : pos % PAGE_CACHE_SIZE + copied ≤ p ∧
          p < pos % PAGE_CACHE_SIZE + copied + (len - copied) := ⟨h1, by omega⟩
      simp [this]
    · simp only [unlock_page, e3, memset_zero]
      have : ¬ (pos % PAGE_CACHE_SIZE + copied ≤ p ∧
          p < pos % PAGE_CACHE_SIZE + copied + (len - copied)) := by omega
      simp [this]
    · simpa [unlock_page] using e4
    · simpa [unlock_page] using e2
    · simp only [e5, ceph_inode_set_size]
      omega
  · obtain ⟨r, s1, e1, e2, e3, e4, e5⟩ := hr1 s.ci rfl
      (memset_zero s.data (pos % PAGE_CACHE_SIZE + copied) (len - copied))
    simp only [hsz, if_false, e1]
    refine ⟨_, rfl, fun p h1 h2 => ?_, fun p h => ?_, ?_, ?_, ?_⟩
    · simp only [unlock_page, e3, memset_zero]
      have : pos % PAGE_CACHE_SIZE + copied ≤ p ∧
          p < pos % PAGE_CACHE_SIZE + copied + (len - copied) := ⟨h1, by omega⟩
      simp [this]
    · simp only [unlock_page, e3, memset_zero]
      have : ¬ (pos % PAGE_CACHE_SIZE + copied ≤ p ∧
          p < pos % PAGE_CACHE_SIZE + copied + (len - copied)) := by omega
      simp [this]
    · simpa [unlock_page] using e4
    · simpa [unlock_page] using e2
    · simp only [e5]
      omega

/-- The spec-modelled accounting helper leaves the size of the inode alone. -/
theorem put_wrbuffer_cap_refs_size (ci : Inode) (n : Int) (c : Option Ctx) :
    (ceph_put_wrbuffer_cap_refs ci n c).i_size = ci.i_size := by
  unfold ceph_put_wrbuffer_cap_refs
  split
  · split <;> rfl
  · rfl
  · rfl

/-- Witness of C11: `ceph_write_end` at position 100 with `len` 50 and 20 bytes
copied, on `example_short_copy`, whose page is not up to date, whose bytes are
all nonzero and whose file ends at 110: the bytes at 120..149 become zero, the
bytes at 119 and 150 keep their values 126 and 157, the page becomes up to date
and dirty, the file grows to 120 bytes, and 20 is returned. -/
theorem write_end_short_copy_witness :
    20 < 50 ∧ 100 % PAGE_CACHE_SIZE + 50 ≤ PAGE_SIZE ∧
    example_short_copy.ci.i_snap_realm = some { cached_context := some 1 } ∧
    (false = true → ∀ ci n c, (ceph_put_wrbuffer_cap_refs ci n c).i_size = ci.i_size) ∧
    (∃ s1, ceph_write_end ceph_put_wrbuffer_cap_refs false example_short_copy 100 50 20
        = .ok (((20 : Nat) : Int), s1) ∧
      (∀ p, 100 % PAGE_CACHE_SIZE + 20 ≤ p → p < 100 % PAGE_CACHE_SIZE + 50 →
        s1.data p = 0) ∧
      (∀ p, ¬ (100 % PAGE_CACHE_SIZE + 20 ≤ p ∧ p < 100 % PAGE_CACHE_SIZE + 50) →
        s1.data p = example_short_copy.data p) ∧
      s1.page.uptodate = true ∧ s1.page.dirty = true ∧
      s1.ci.i_size = max example_short_copy.ci.i_size ((100 + 20 : Nat) : Int)) ∧
    (example_short_copy.page.uptodate = false ∧ example_short_copy.page.dirty = false ∧
      example_short_copy.ci.i_size = 110 ∧
      example_short_copy.data 120 = 127 ∧ example_short_copy.data 149 = 156) ∧
    (∃ s1, ceph_write_end ceph_put_wrbuffer_cap_refs false example_short_copy 100 50 20
        = .ok (20, s1) ∧
      s1.data 119 = 126 ∧ s1.data 120 = 0 ∧ s1.data 149 = 0 ∧ s1.data 150 = 157 ∧
      s1.page.uptodate = true ∧ s1.page.dirty = true ∧ s1.page.private_ = some 1 ∧
      s1.ci.i_size = 120) :=
  ⟨by decide, by decide, rfl, fun _ => put_wrbuffer_cap_refs_size,
    write_end_short_copy ceph_put_wrbuffer_cap_refs false
      example_short_copy { cached_context := some 1 } 100 50 20
      (by decide) (by decide) rfl (fun _ => put_wrbuffer_cap_refs_size),
    ⟨rfl, rfl, rfl, rfl, rfl⟩,
    ⟨_, rfl, by decide, by decide, by decide, by decide, rfl, rfl, rfl, by decide⟩⟩

/-! ## `ceph_page_mkwrite` -/

/-- The length `ceph_page_mkwrite` computes: for a page that starts at or
before end-of-file it is the valid length of the page, clamped at end-of-file;
for a page that starts past end-of-file it is the size of the file modulo the
page size. -/
theorem page_mkwrite_len_cases (index : Nat) (size : Int) :
    (((index * PAGE_CACHE_SIZE : Nat) : Int) ≤ size →
      page_mkwrite_len index size =
        min (PAGE_SIZE : Int) (max 0 (size - ((index * PAGE_CACHE_SIZE : Nat) : Int)))) ∧
    (size < ((index * PAGE_CACHE_SIZE : Nat) : Int) →
      page_mkwrite_len index size = size % (PAGE_CACHE_SIZE : Int)) := by
  unfold page_mkwrite_len PAGE_CACHE_SIZE PAGE_SIZE
  refine ⟨fun h => ?_, fun h => ?_⟩
  · simp only
    push_cast at h ⊢
    split_ifs with h1
    · omega
    · omega
  · simp only
    push_cast at h ⊢
    split_ifs with h1
    · omega
    · rfl

/-- C12, the code at the failing input: a write fault on the page at index 1
of a file of 100 bytes (the file was truncated below the page).  The length
passed to `ceph_write_begin` and `ceph_write_end` is 100, where the valid
length of the page clamped at end-of-file is 0, and `ceph_write_end` extends
the size of the inode from 100 to 4196. -/
theorem page_mkwrite_past_eof :
    page_mkwrite_len 1 100 = 100 ∧
    min (PAGE_SIZE : Int) (max 0 (100 - ((1 * PAGE_CACHE_SIZE : Nat) : Int))) = 0 ∧
    ¬ (((1 * PAGE_CACHE_SIZE : Nat) : Int) + page_mkwrite_len 1 100 ≤ 100) ∧
    ∃ s1, ceph_page_mkwrite ceph_put_wrbuffer_cap_refs
        { nomem := false, wr_rc := 0, rd_rc := 0, rd_data := fun _ => 0, truncated := false }
        false (mk_state clean_page { mk_inode 0 0 [] 1 with i_size := 100 }) 1 = .ok (0, s1) ∧
      s1.ci.i_size = 4196 ∧ s1.page.dirty = true := by
  refine ⟨by decide, by decide, by decide, _, rfl, by decide, by decide⟩

/-! ## The batches of `ceph_writepages` -/

/-- Lines 385-397: `wsize` is the larger of `PAGE_CACHE_SIZE` and the block
size `1 << i_blkbits` (an `unsigned`), capped by the mount option `wsize` when
that is nonzero; `max_pages` is `wsize` in pages and is at least 1. -/
theorem wsize_of_spec (i_blkbits mount_wsize : Nat) :
    wsize_of i_blkbits mount_wsize =
      max PAGE_CACHE_SIZE
        (if mount_wsize ≠ 0 then min (2 ^ i_blkbits % 2 ^ 32) mount_wsize
         else 2 ^ i_blkbits % 2 ^ 32) ∧
    (i_blkbits < 32 → 2 ^ i_blkbits % 2 ^ 32 = 2 ^ i_blkbits) ∧
    max_pages_of i_blkbits mount_wsize = wsize_of i_blkbits mount_wsize / PAGE_SIZE ∧
    1 ≤ max_pages_of i_blkbits mount_wsize := by
  have hw : PAGE_CACHE_SIZE ≤ wsize_of i_blkbits mount_wsize := by
    unfold wsize_of
    simp only
    split_ifs <;> omega
  refine ⟨?_, fun h => ?_, rfl, ?_⟩
  · unfold wsize_of
    simp only
    generalize 2 ^ i_blkbits % 2 ^ 32 = w0
    split_ifs <;> omega
  · apply Nat.mod_eq_of_lt
    exact Nat.pow_lt_pow_right (by decide) h
  · unfold max_pages_of
    unfold PAGE_CACHE_SIZE at hw
    simp only [PAGE_CACHE_SHIFT]
    omega

/-- C13: every batch that a run of `ceph_writepages` hands to the bulk write
has between 1 and `max_pages` pages, where `max_pages = wsize / PAGE_SIZE ≥ 1`
and `wsize` is the larger of `PAGE_SIZE` and the block size `1 << i_blkbits`
capped by the mount option `wsize` when that is nonzero; the indices of its
pages are consecutive; every page is attached to the context selected for the
pass, which is the context of the request; and every page has its dirty flag
cleared and its writeback flag set when the write is issued. -/
theorem batch_well_formed (put : CapRefsPut) (env : WpEnv) (m : Mapping) (ret : Int) (w : Wp)
    (hrun : ceph_writepages put env m = .ok (ret, w)) :
    (wsize_of m.ci.i_blkbits env.mount_wsize =
      max PAGE_SIZE
        (if env.mount_wsize ≠ 0 then min (2 ^ m.ci.i_blkbits % 2 ^ 32) env.mount_wsize
         else 2 ^ m.ci.i_blkbits % 2 ^ 32) ∧
     (m.ci.i_blkbits < 32 → 2 ^ m.ci.i_blkbits % 2 ^ 32 = 2 ^ m.ci.i_blkbits) ∧
     max_pages_of m.ci.i_blkbits env.mount_wsize =
       wsize_of m.ci.i_blkbits env.mount_wsize / PAGE_SIZE ∧
     1 ≤ max_pages_of m.ci.i_blkbits env.mount_wsize) ∧
    (∀ e ∈ w.log,
      1 ≤ e.pages.length ∧
      e.pages.length ≤ max_pages_of m.ci.i_blkbits env.mount_wsize ∧
      (∀ k (h : k + 1 < e.pages.length), e.pages[k + 1].1 = e.pages[k].1 + 1) ∧
      (∀ kp ∈ e.pages, kp.2.private_ = some e.snapc ∧ kp.2.dirty = false ∧
        kp.2.writeback = true)) := by
  refine ⟨wsize_of_spec _ _, ?_⟩
  cases ha : env.alloc_fails with
  | true =>
    unfold ceph_writepages at hrun
    simp only [ha, if_true, Res.ok.injEq, Prod.mk.injEq] at hrun
    obtain ⟨-, rfl⟩ := hrun
    intro e he
    simp at he
  | false =>
    obtain ⟨w1, h1, h2, -⟩ := ceph_writepages_spec put env m ha
    rw [h1] at hrun
    simp only [Res.ok.injEq, Prod.mk.injEq] at hrun
    obtain ⟨-, rfl⟩ := hrun
    intro e he
    obtain ⟨⟨-, g2, g3, g4, a, g5⟩, g6⟩ := h2 e he
    refine ⟨?_, by rw [← g6]; exact g4, fun k hk => ?_, fun kp hkp => ?_⟩
    · have := List.length_pos.mpr g3
      omega
    · have hl : (e.pages.map Prod.fst).length = e.pages.length := List.length_map _ _
      have hk1 : k + 1 < (e.pages.map Prod.fst).length := by rw [hl]; exact hk
      have hk0 : k < (e.pages.map Prod.fst).length := by omega
      have hk2 : k < e.pages.length := by omega
      have e1 : (e.pages.map Prod.fst)[k + 1] = e.pages[k + 1].1 := by simp
      have e2 : (e.pages.map Prod.fst)[k] = e.pages[k].1 := by simp
      rw [← e1, ← e2]
      simp only [g5, List.getElem_range']
      omega
    · obtain ⟨c1, c2, c3, -⟩ := g2 kp hkp
      exact ⟨c1, c2, c3⟩

/-- Witness of C13: the scan of `example_mapping3`, which issues a bulk write
for the pages 0, 1, 2 and one for the page 5. -/
theorem batch_well_formed_witness :
    ceph_writepages ceph_put_wrbuffer_cap_refs (example_env 12288) example_mapping3 =
      .ok ((run_result (ceph_writepages ceph_put_wrbuffer_cap_refs (example_env 12288)
              example_mapping3) (0, example_wp)).1,
           (run_result (ceph_writepages ceph_put_wrbuffer_cap_refs (example_env 12288)
              example_mapping3) (0, example_wp)).2) ∧
    (run_result (ceph_writepages ceph_put_wrbuffer_cap_refs (example_env 12288)
        example_mapping3) (0, example_wp)).2.log.map (fun e => e.pages.map Prod.fst)
      = [[0, 1, 2], [5]] ∧
    ((wsize_of example_mapping3.ci.i_blkbits (example_env 12288).mount_wsize =
      max PAGE_SIZE
        (if (example_env 12288).mount_wsize ≠ 0 then
           min (2 ^ example_mapping3.ci.i_blkbits % 2 ^ 32) (example_env 12288).mount_wsize
         else 2 ^ example_mapping3.ci.i_blkbits % 2 ^ 32) ∧
     (example_mapping3.ci.i_blkbits < 32 →
       2 ^ example_mapping3.ci.i_blkbits % 2 ^ 32 = 2 ^ example_mapping3.ci.i_blkbits) ∧
     max_pages_of example_mapping3.ci.i_blkbits (example_env 12288).mount_wsize =
       wsize_of example_mapping3.ci.i_blkbits (example_env 12288).mount_wsize / PAGE_SIZE ∧
     1 ≤ max_pages_of example_mapping3.ci.i_blkbits (example_env 12288).mount_wsize) ∧
    (∀ e ∈ (run_result (ceph_writepages ceph_put_wrbuffer_cap_refs (example_env 12288)
        example_mapping3) (0, example_wp)).2.log,
      1 ≤ e.pages.length ∧
      e.pages.length ≤ max_pages_of example_mapping3.ci.i_blkbits (example_env 12288).mount_wsize ∧
      (∀ k (h : k + 1 < e.pages.length), e.pages[k + 1].1 = e.pages[k].1 + 1) ∧
      (∀ kp ∈ e.pages, kp.2.private_ = some e.snapc ∧ kp.2.dirty = false ∧
        kp.2.writeback = true))) :=
  ⟨by rfl, by decide,
    batch_well_formed ceph_put_wrbuffer_cap_refs (example_env 12288) example_mapping3 _ _
      (by rfl)⟩

end Ceph
